import Mathlib

/-!
# Verification of the currency-detection and page-scanning core

A shallow embedding, in Lean 4, of the detection / scanning / replacement core
of the `open-source-currency-converter` browser extension:

* `src/content/currency-detector.js` — `parseNumber`, `identifyCurrencies`,
  `detectCurrency` (regex-based detection is embedded through a small
  backtracking matcher, `reMatch`, that follows JavaScript regex semantics:
  leftmost match, alternatives tried in order, greedy quantifiers);
* `src/content/page-scanner.js` — the scanner state machine
  (`processTextNode`, `processCompositeElement`, the two replacement
  functions, `restoreElement`, `restoreAll`, `scanPage`, the debounced
  mutation-batch loop) over an explicit document model;
* `src/background/service-worker.js` — `reorderCurrencies`;
* `src/shared/constants.js` — the symbol / keyword / currency tables.

Modeling conventions:
* JavaScript strings are `List Char` (`Str`).  For every string that appears
  in the code, UTF-16 length and codepoint length agree (all characters are
  in the BMP), so `List.length` is a faithful model of `.length`.
* JavaScript numbers are modeled by exact rationals `ℚ`; `NaN` (and the
  `null` returns of the source) become `Option.none`.  All amounts reachable
  in the detector are far below the double overflow threshold, so finiteness
  is automatic in the model.
* DOM state is a flat list of identified regions (text nodes and composite
  price containers).  Removal from the document is modeled by an `alive`
  flag (the JS object stays referenced by pending callbacks after removal).
  The deferred `animationend` callbacks of the two replacement functions are
  modeled as an explicit queue of pending transitions, fired by a separate
  event, exactly mirroring the single-threaded turn-based scheduling of the
  page.
-/

set_option maxRecDepth 16384

namespace CurrencyConverter

/-- Characters of a JS string. -/
abbrev Str := List Char

/-- JS `\s` / `String.prototype.trim` whitespace class (BMP members). -/
def isJsWhitespace (c : Char) : Bool :=
  let n := c.toNat
  n == 32 || n == 9 || n == 10 || n == 13 || n == 11 || n == 12 ||
  n == 160 || n == 0xfeff || (0x2000 ≤ n && n ≤ 0x200a) ||
  n == 0x2028 || n == 0x2029 || n == 0x202f || n == 0x205f ||
  n == 0x3000 || n == 0x1680

/-- JS regex `\d`. -/
def isDigitChar (c : Char) : Bool :=
  48 ≤ c.toNat && c.toNat ≤ 57

/-- JS regex `\w` (word character), used by the `\b` assertion. -/
def isWordChar (c : Char) : Bool :=
  (97 ≤ c.toNat && c.toNat ≤ 122) || (65 ≤ c.toNat && c.toNat ≤ 90) ||
  (48 ≤ c.toNat && c.toNat ≤ 57) || c.toNat == 95

/-- `String.prototype.trim`. -/
def jsTrim (s : Str) : Str :=
  ((s.dropWhile isJsWhitespace).reverse.dropWhile isJsWhitespace).reverse

/-- `String.prototype.trimEnd`. -/
def jsTrimEnd (s : Str) : Str :=
  (s.reverse.dropWhile isJsWhitespace).reverse

/-- ASCII lower-casing, the fragment of `String.prototype.toLowerCase`
relevant here (every keyword in the tables is ASCII). -/
def lowerStr (s : Str) : Str := s.map Char.toLower

/-- First result of `f` over a list — the translation of a JS
`for`-loop whose body `return`s on the first success. -/
def firstSome (l : List α) (f : α → Option β) : Option β :=
  match l with
  | [] => none
  | x :: rest =>
    match f x with
    | some b => some b
    | none => firstSome rest f

/-- Association-list lookup, the model of a JS object used as a map. -/
def assocLookup [DecidableEq α] (l : List (α × β)) (k : α) : Option β :=
  match l with
  | [] => none
  | (a, b) :: rest => if a = k then some b else assocLookup rest k

/-- `String.prototype.indexOf` (first occurrence; `some 0` on the empty
pattern, `none` for JS's `-1`). -/
def strIndexOf : Str → Str → Option Nat
  | [], pat => if pat = [] then some 0 else none
  | c :: rest, pat =>
    if pat.isPrefixOf (c :: rest) then some 0
    else (strIndexOf rest pat).map (· + 1)

/-- `String.prototype.lastIndexOf` for a single character. -/
def lastIndexOfChar : Str → Char → Option Nat
  | [], _ => none
  | x :: rest, c =>
    match lastIndexOfChar rest c with
    | some n => some (n + 1)
    | none => if x = c then some 0 else none

/-- `String.prototype.replace(c, d)` with a *string* first argument:
JS replaces only the first occurrence. -/
def replaceFirstChar : Str → Char → Char → Str
  | [], _, _ => []
  | x :: r, a, b => if x = a then b :: r else x :: replaceFirstChar r a b

/-- `String.prototype.replace(/c/g, '')` — remove every occurrence. -/
def removeAllChar (s : Str) (c : Char) : Str :=
  s.filter (fun x => x != c)

/-- `String.prototype.endsWith`. -/
def strEndsWith (s suffix : Str) : Bool :=
  suffix.isSuffixOf s

/-- Numeric value of a digit string (most significant first). -/
def digitsVal (ds : Str) : ℕ :=
  ds.foldl (fun a c => a * 10 + (c.toNat - 48)) 0

/-- Value of `intPart.fracPart`. -/
def decVal (intPart fracPart : Str) : ℚ :=
  (digitsVal intPart : ℚ) + (digitsVal fracPart : ℚ) / (10 : ℚ) ^ fracPart.length

/-- Every character is a digit. -/
def allDigits (s : Str) : Prop := ∀ c ∈ s, isDigitChar c = true

/-- Every character is a digit or a dot. -/
def digitsOrDot (s : Str) : Prop := ∀ c ∈ s, isDigitChar c = true ∨ c = '.'

/-- Every character is a digit or a comma. -/
def digitsOrComma (s : Str) : Prop := ∀ c ∈ s, isDigitChar c = true ∨ c = ','

instance allDigitsDec (s : Str) : Decidable (allDigits s) :=
  inferInstanceAs (Decidable (∀ c ∈ s, isDigitChar c = true))

instance digitsOrDotDec (s : Str) : Decidable (digitsOrDot s) :=
  inferInstanceAs (Decidable (∀ c ∈ s, isDigitChar c = true ∨ c = '.'))

instance digitsOrCommaDec (s : Str) : Decidable (digitsOrComma s) :=
  inferInstanceAs (Decidable (∀ c ∈ s, isDigitChar c = true ∨ c = ','))

/-!
## `parseFloat`

The model of JS `parseFloat` on the strings reachable in this codebase:
skip leading whitespace, optional sign, longest decimal-literal prefix with
optional exponent; `none` models `NaN` (no parsable prefix).  The `Infinity`
literal is not modeled — no call site can produce it (all inputs here are
built from digits and separators).
-/

/-- JS `parseFloat`, idealized over exact rationals. -/
def parseFloatQ (s : Str) : Option ℚ :=
  let s1 := s.dropWhile isJsWhitespace
  let sign : ℚ := if s1.head? = some '-' then -1 else 1
  let s2 := if s1.head? = some '-' ∨ s1.head? = some '+' then s1.tail else s1
  let ip := s2.takeWhile isDigitChar
  let r1 := s2.dropWhile isDigitChar
  let fp := if r1.head? = some '.' then r1.tail.takeWhile isDigitChar else []
  let r2 := if r1.head? = some '.' then r1.tail.dropWhile isDigitChar else r1
  if ip = [] ∧ fp = [] then none
  else
    let mant : ℚ := (digitsVal ip : ℚ) + (digitsVal fp : ℚ) / (10 : ℚ) ^ fp.length
    let expVal : ℤ :=
      if r2.head? = some 'e' ∨ r2.head? = some 'E' then
        let r := r2.tail
        if r.head? = some '-' then
          (if r.tail.takeWhile isDigitChar = [] then 0
           else -((digitsVal (r.tail.takeWhile isDigitChar) : ℤ)))
        else if r.head? = some '+' then
          (if r.tail.takeWhile isDigitChar = [] then 0
           else ((digitsVal (r.tail.takeWhile isDigitChar) : ℤ)))
        else
          (if r.takeWhile isDigitChar = [] then 0
           else ((digitsVal (r.takeWhile isDigitChar) : ℤ)))
      else 0
    some (sign * mant * (10 : ℚ) ^ expVal)

/-!
## `parseNumber` (src/content/currency-detector.js, lines 121–178)

The number-format argument is a JS string (`'auto' | 'us' | 'eu'`); any
other value falls through to the auto-detection branch, as in the source.
-/

def usFmt : Str := "us".data
def euFmt : Str := "eu".data
def autoFmt : Str := "auto".data

/-- `parseNumber(numStr, format)` — translation of the source function. -/
def parseNumber (numStr : Str) (format : Str) : Option ℚ :=
  if jsTrim numStr = [] then none
  else
    let cleaned := (jsTrim numStr).filter (fun c => !(isJsWhitespace c))
    if format = usFmt then
      parseFloatQ (removeAllChar cleaned ',')
    else if format = euFmt then
      parseFloatQ (replaceFirstChar (removeAllChar cleaned '.') ',' '.')
    else
      match lastIndexOfChar cleaned '.', lastIndexOfChar cleaned ',' with
      | none, none => parseFloatQ cleaned
      | some lastDot, none =>
        if cleaned.length - (lastDot + 1) ≤ 2 then parseFloatQ cleaned
        else parseFloatQ (removeAllChar cleaned '.')
      | none, some lastComma =>
        if cleaned.length - (lastComma + 1) ≤ 2 then
          parseFloatQ (replaceFirstChar cleaned ',' '.')
        else parseFloatQ (removeAllChar cleaned ',')
      | some lastDot, some lastComma =>
        if lastComma < lastDot then parseFloatQ (removeAllChar cleaned ',')
        else parseFloatQ (replaceFirstChar (removeAllChar cleaned '.') ',' '.')

/-!
## Constants (src/shared/constants.js)
-/

/-- `CURRENCY_SYMBOLS`, in the source's declaration (insertion) order. -/
def CURRENCY_SYMBOLS_SRC : List (String × List String) := [
  ("$", ["USD", "AUD", "CAD", "NZD", "SGD", "HKD"]),
  ("€", ["EUR"]),
  ("£", ["GBP"]),
  ("¥", ["JPY", "CNY"]),
  ("₹", ["INR"]),
  ("₩", ["KRW"]),
  ("kr", ["SEK", "NOK", "DKK", "ISK"]),
  ("Fr", ["CHF"]),
  ("zł", ["PLN"]),
  ("Ft", ["HUF"]),
  ("Kč", ["CZK"]),
  ("lei", ["RON"]),
  ("₺", ["TRY"]),
  ("R$", ["BRL"]),
  ("R", ["ZAR"]),
  ("₱", ["PHP"]),
  ("฿", ["THB"]),
  ("RM", ["MYR"]),
  ("Rp", ["IDR"]),
  ("₪", ["ILS"]),
  ("Mex$", ["MXN"])]

def CURRENCY_SYMBOLS : List (Str × List Str) :=
  CURRENCY_SYMBOLS_SRC.map (fun p => (p.1.data, p.2.map String.data))

/-- `CURRENCY_KEYWORDS`, in the source's declaration order. -/
def CURRENCY_KEYWORDS_SRC : List (String × List String) := [
  ("USD", ["dollar", "dollars", "buck", "bucks", "greenback", "greenbacks",
           "us dollar", "us dollars", "usd"]),
  ("EUR", ["euro", "euros", "eur"]),
  ("JPY", ["yen", "yens", "jpy"]),
  ("GBP", ["pound", "pounds", "quid", "sterling", "pound sterling", "gbp"]),
  ("CHF", ["franc", "francs", "swiss franc", "swiss francs", "sfr", "chf"]),
  ("CNY", ["yuan", "yuans", "renminbi", "rmb", "kuai", "cny"]),
  ("INR", ["rupee", "rupees", "inr"]),
  ("AUD", ["australian dollar", "australian dollars", "aussie dollar",
           "aussie dollars", "aud"]),
  ("CAD", ["canadian dollar", "canadian dollars", "loonie", "loonies",
           "toonie", "toonies", "cad"]),
  ("NZD", ["new zealand dollar", "new zealand dollars", "kiwi", "kiwis", "nzd"]),
  ("SGD", ["singapore dollar", "singapore dollars", "sgd"]),
  ("HKD", ["hong kong dollar", "hong kong dollars", "hkd"]),
  ("SEK", ["swedish krona", "sek"]),
  ("NOK", ["norwegian krone", "nok"]),
  ("DKK", ["danish krone", "dkk"]),
  ("ISK", ["icelandic krona", "icelandic kronur", "isk"]),
  ("CZK", ["koruna", "korunas", "czech koruna", "czk"]),
  ("HUF", ["forint", "forints", "huf"]),
  ("PLN", ["zloty", "zlotys", "pln"]),
  ("RON", ["leu", "lei", "romanian leu", "ron"]),
  ("BGN", ["lev", "leva", "bulgarian lev", "bgn"]),
  ("HRK", ["kuna", "kunas", "croatian kuna", "hrk"]),
  ("TRY", ["lira", "liras", "turkish lira", "try"]),
  ("BRL", ["real", "reais", "brazilian real", "brl"]),
  ("MXN", ["mexican peso", "mexican pesos", "mxn"]),
  ("PHP", ["philippine peso", "philippine pesos", "php"]),
  ("IDR", ["rupiah", "rupiahs", "indonesian rupiah", "idr"]),
  ("ILS", ["shekel", "shekels", "israeli shekel", "ils"]),
  ("KRW", ["won", "wons", "south korean won", "krw"]),
  ("MYR", ["ringgit", "ringgits", "malaysian ringgit", "myr"]),
  ("THB", ["baht", "bahts", "thai baht", "thb"]),
  ("ZAR", ["rand", "rands", "south african rand", "zar"]),
  ("GENERIC_DOLLAR", ["USD", "AUD", "CAD", "NZD", "SGD", "HKD"]),
  ("GENERIC_PESO", ["MXN", "PHP"]),
  ("GENERIC_KRONA", ["SEK", "ISK"]),
  ("GENERIC_KRONE", ["NOK", "DKK"]),
  ("GENERIC_CROWN", ["CZK", "SEK", "NOK", "DKK", "ISK"])]

def CURRENCY_KEYWORDS : List (Str × List Str) :=
  CURRENCY_KEYWORDS_SRC.map (fun p => (p.1.data, p.2.map String.data))

/-- Keys of `CURRENCY_NAMES` = `ECB_CURRENCIES`, in declaration order. -/
def ECB_CURRENCIES_SRC : List String := [
  "EUR", "USD", "JPY", "GBP", "CHF", "AUD", "CAD", "NZD", "SEK", "NOK",
  "DKK", "ISK", "CZK", "HUF", "PLN", "RON", "TRY", "BGN", "HRK", "BRL",
  "MXN", "CNY", "HKD", "IDR", "ILS", "INR", "KRW", "MYR", "PHP", "SGD",
  "THB", "ZAR"]

def ECB_CURRENCIES : List Str := ECB_CURRENCIES_SRC.map String.data

def ZERO_DECIMAL_CURRENCIES : List Str :=
  (["HUF", "JPY", "KRW", "IDR", "ISK"] : List String).map String.data

/-!
## `reorderCurrencies` (src/background/service-worker.js, lines 94–102)

`preferred` is a JS string; the source's `!preferred` guard is true for the
empty string (and for `null`/`undefined`, both modeled by `[]`).
-/

/-- `Array.prototype.indexOf` (first index, `none` for `-1`). -/
def jsIndexOf [DecidableEq α] : List α → α → Option Nat
  | [], _ => none
  | x :: rest, a => if x = a then some 0 else (jsIndexOf rest a).map (· + 1)

/-- `reorderCurrencies(currencies, preferred)`. -/
def reorderCurrencies (currencies : List Str) (preferred : Str) : List Str :=
  if preferred = [] then currencies
  else
    match jsIndexOf currencies preferred with
    | none => currencies
    | some idx =>
      if idx = 0 then currencies
      else preferred :: currencies.eraseIdx idx

/-!
## A small backtracking regex matcher

`detectCurrency` builds its matches from JS regexes.  The embedding uses an
explicit AST and a continuation-passing backtracking matcher that follows
JavaScript semantics: alternatives are tried left to right, quantifiers are
greedy, the overall search returns the leftmost successful start position.
Fuel bounds the call depth; it is sized generously from the input length and
the pattern size (the patterns below never need more).
-/

/-- Regex AST (the fragment used by the detector's patterns). -/
inductive RE where
  | eps
  | cls (p : Char → Bool)
  | lit (ci : Bool) (s : Str)
  | cat (r1 r2 : RE)
  | alt2 (r1 r2 : RE)
  | opt (r : RE)
  | star (r : RE)
  | wordB
  | group (idx : Nat) (r : RE)

/-- Captured group spans: `(index, start, stop)`. -/
abbrev Caps := List (Nat × Nat × Nat)

/-- Does literal `l` occur in `s` at position `i` (case-insensitively if
`ci`)? -/
def litAt (ci : Bool) : Str → Str → Nat → Bool
  | [], _, _ => true
  | c :: rest, s, i =>
    match s.get? i with
    | some d => (if ci then c.toLower == d.toLower else c == d) && litAt ci rest s (i + 1)
    | none => false

/-- The JS `\b` assertion at position `i` of `s`. -/
def atWordBoundary (s : Str) (i : Nat) : Bool :=
  let before :=
    match i with
    | 0 => false
    | j + 1 =>
      match s.get? j with
      | some c => isWordChar c
      | none => false
  let after :=
    match s.get? i with
    | some c => isWordChar c
    | none => false
  before != after

/-- Backtracking matcher in continuation-passing style.  `k` receives the
position after the present node and the captures collected so far; the
first success in JS backtracking order wins. -/
def reMatch : Nat → RE → Str → Nat → Caps →
    (Nat → Caps → Option (Nat × Caps)) → Option (Nat × Caps)
  | 0, _, _, _, _, _ => none
  | fuel + 1, re, s, i, caps, k =>
    match re with
    | .eps => k i caps
    | .cls p =>
      match s.get? i with
      | some c => if p c then k (i + 1) caps else none
      | none => none
    | .lit ci l => if litAt ci l s i then k (i + l.length) caps else none
    | .cat r1 r2 =>
      reMatch fuel r1 s i caps (fun j caps2 => reMatch fuel r2 s j caps2 k)
    | .alt2 r1 r2 =>
      match reMatch fuel r1 s i caps k with
      | some res => some res
      | none => reMatch fuel r2 s i caps k
    | .opt r =>
      match reMatch fuel r s i caps k with
      | some res => some res
      | none => k i caps
    | .star r =>
      match reMatch fuel r s i caps (fun j caps2 =>
          if j ≤ i then none else reMatch fuel (.star r) s j caps2 k) with
      | some res => some res
      | none => k i caps
    | .wordB => if atWordBoundary s i then k i caps else none
    | .group idx r =>
      reMatch fuel r s i caps (fun j caps2 => k j ((idx, i, j) :: caps2))

/-- Node count of a pattern, used only to size the fuel. -/
def reSize : RE → Nat
  | .eps => 1
  | .cls _ => 1
  | .lit _ _ => 1
  | .wordB => 1
  | .cat a b => reSize a + reSize b + 1
  | .alt2 a b => reSize a + reSize b + 1
  | .opt a => reSize a + 1
  | .star a => reSize a + 1
  | .group _ a => reSize a + 1

/-- Leftmost regex search (`String.prototype.match` with a non-global
regex): returns match start, match end, and captures. -/
def reSearch (re : RE) (s : Str) : Option (Nat × Nat × Caps) :=
  let fuel := (s.length + 2) * (reSize re + 2) + 2
  firstSome (List.range (s.length + 1)) (fun i =>
    match reMatch fuel re s i [] (fun j caps => some (j, caps)) with
    | some (j, caps) => some (i, j, caps)
    | none => none)

/-- `(s.drop a).take (b - a)` — the slice `s[a..b)`. -/
def slice (s : Str) (a b : Nat) : Str :=
  (s.drop a).take (b - a)

/-- Span of a captured group (the most recent capture wins, as in JS). -/
def capLookup : Caps → Nat → Option (Nat × Nat)
  | [], _ => none
  | (idx, a, b) :: rest, wanted =>
    if idx = wanted then some (a, b) else capLookup rest wanted

/-- Run a search and extract the whole match plus groups 1 and 2. -/
def searchG12 (re : RE) (s : Str) : Option (Str × Str × Str) :=
  match reSearch re s with
  | none => none
  | some (i, j, caps) =>
    match capLookup caps 1, capLookup caps 2 with
    | some (a1, b1), some (a2, b2) => some (slice s i j, slice s a1 b1, slice s a2 b2)
    | _, _ => none

/-- Alternation of a list of patterns, tried in order (`a|b|…`). -/
def altList : List RE → RE
  | [] => .cls (fun _ => false)
  | [r] => r
  | r :: rest => .alt2 r (altList rest)

/-!
## The detector's patterns (src/content/currency-detector.js, lines 7–113)
-/

/-- Symbols sorted longest-first (`sortedSymbols`); JS `Array.sort` is
stable, so ties keep declaration order — as does `List.mergeSort`. -/
def sortedSymbols : List Str :=
  (CURRENCY_SYMBOLS.map Prod.fst).mergeSort (fun a b => b.length ≤ a.length)

/-- `keywordMap` insertion: append-new-key-at-end, append-new-code-at-end
(JS object insertion order). -/
def kwMapAdd (m : List (Str × List Str)) (kw : Str) (iso : Str) :
    List (Str × List Str) :=
  match m with
  | [] => [(kw, [iso])]
  | (k, v) :: rest =>
    if k = kw then (k, if v.contains iso then v else v ++ [iso]) :: rest
    else (k, v) :: kwMapAdd rest kw iso

/-- Flattened `keyword -> [ISO codes]` map.  A "keyword" that is three
uppercase letters (the `GENERIC_*` code lists) is skipped, as in the
source. -/
def keywordMap : List (Str × List Str) :=
  CURRENCY_KEYWORDS.foldl (fun m e =>
    e.2.foldl (fun m2 kw =>
      if kw.length = 3 ∧ kw = kw.map Char.toUpper then m2
      else kwMapAdd m2 (lowerStr kw) e.1) m) []

/-- Keywords sorted longest-first (`sortedKeywords`). -/
def sortedKeywords : List Str :=
  (keywordMap.map Prod.fst).mergeSort (fun a b => b.length ≤ a.length)

/-- `\d` as a pattern node. -/
def digitRE : RE := .cls isDigitChar

/-- `[.,\s]` — a grouping separator. -/
def sepClsRE : RE := .cls (fun c => c == '.' || c == ',' || isJsWhitespace c)

/-- `[.,]` — a decimal separator. -/
def decClsRE : RE := .cls (fun c => c == '.' || c == ',')

/-- `\s`. -/
def wsRE : RE := .cls isJsWhitespace

/-- `[A-Z]`. -/
def upperRE : RE := .cls (fun c => 65 ≤ c.toNat && c.toNat ≤ 90)

/-- `\d{3}`. -/
def digit3 : RE := .cat digitRE (.cat digitRE digitRE)

/-- `\d{1,3}` (greedy). -/
def digit1to3 : RE := .cat digitRE (.opt (.cat digitRE (.opt digitRE)))

/-- `\d{1,2}` (greedy). -/
def digit1to2 : RE := .cat digitRE (.opt digitRE)

/-- `numberPattern`:
`\d{1,3}(?:[.,\s]\d{3})*(?:[.,]\d{1,2})?|\d+(?:[.,]\d{1,2})?`. -/
def numRE : RE :=
  .alt2
    (.cat digit1to3 (.cat (.star (.cat sepClsRE digit3)) (.opt (.cat decClsRE digit1to2))))
    (.cat digitRE (.cat (.star digitRE) (.opt (.cat decClsRE digit1to2))))

/-- `([A-Z]{3})` body. -/
def iso3RE : RE := .cat upperRE (.cat upperRE upperRE)

/-- Keyword alternation (case-insensitive literals, longest first). -/
def kwAltRE : RE := altList (sortedKeywords.map (RE.lit true))

/-- `(num)\s?(kwAlt)\b` with the `i` flag. -/
def kwAfterRe : RE :=
  .cat (.group 1 numRE) (.cat (.opt wsRE) (.cat (.group 2 kwAltRE) .wordB))

/-- `\b(kwAlt)\s?(num)` with the `i` flag. -/
def kwBeforeRe : RE :=
  .cat .wordB (.cat (.group 1 kwAltRE) (.cat (.opt wsRE) (.group 2 numRE)))

/-- `\b([A-Z]{3})\s?(num)`. -/
def isoBeforeRe : RE :=
  .cat .wordB (.cat (.group 1 iso3RE) (.cat (.opt wsRE) (.group 2 numRE)))

/-- `(num)\s?([A-Z]{3})\b`. -/
def isoAfterRe : RE :=
  .cat (.group 1 numRE) (.cat (.opt wsRE) (.cat (.group 2 iso3RE) .wordB))

/-- Per-symbol `(sym)\s?(num)`. -/
def symBeforeRe (sym : Str) : RE :=
  .cat (.group 1 (.lit false sym)) (.cat (.opt wsRE) (.group 2 numRE))

/-- Per-symbol `(num)\s?(sym)`. -/
def symAfterRe (sym : Str) : RE :=
  .cat (.group 1 numRE) (.cat (.opt wsRE) (.group 2 (.lit false sym)))

/-!
## `identifyCurrencies` and `detectCurrency`
(src/content/currency-detector.js, lines 185–338)
-/

/-- The detection record returned by the Matcher. -/
structure Detection where
  amount : ℚ
  currencies : List Str
  original : Str
  symbol : Str
deriving DecidableEq, Repr

/-- `identifyCurrencies(symbolOrCode)`. -/
def identifyCurrencies (symbolOrCode : Str) : List Str :=
  match assocLookup CURRENCY_SYMBOLS symbolOrCode with
  | some v => v
  | none =>
    if ECB_CURRENCIES.contains symbolOrCode then [symbolOrCode]
    else
      match assocLookup keywordMap (lowerStr symbolOrCode) with
      | some v => v
      | none => []

/-- Keyword strategy, number-before-keyword ordering ("20 dollars"). -/
def kwAfterAttempt (trimmed : Str) (numberFormat : Str) : Option Detection :=
  match searchG12 kwAfterRe trimmed with
  | none => none
  | some (whole, numStr, kwStr) =>
    match parseNumber numStr numberFormat with
    | none => none
    | some amount =>
      if 0 < amount then
        let currencies := identifyCurrencies kwStr
        if currencies = [] then none
        else some ⟨amount, currencies, whole, kwStr⟩
      else none

/-- Keyword strategy, keyword-before-number ordering ("US Dollars 20"). -/
def kwBeforeAttempt (trimmed : Str) (numberFormat : Str) : Option Detection :=
  match searchG12 kwBeforeRe trimmed with
  | none => none
  | some (whole, kwStr, numStr) =>
    match parseNumber numStr numberFormat with
    | none => none
    | some amount =>
      if 0 < amount then
        let currencies := identifyCurrencies kwStr
        if currencies = [] then none
        else some ⟨amount, currencies, whole, kwStr⟩
      else none

/-- ISO strategy, code-before-number ordering ("USD 100").  Note: a single
leftmost regex match is attempted; if its code is not a known currency the
strategy gives up (no further search), as in the source. -/
def isoBeforeAttempt (trimmed : Str) (numberFormat : Str) : Option Detection :=
  match searchG12 isoBeforeRe trimmed with
  | none => none
  | some (whole, code, numStr) =>
    if ECB_CURRENCIES.contains code then
      match parseNumber numStr numberFormat with
      | none => none
      | some amount =>
        if 0 < amount then some ⟨amount, [code], whole, code⟩ else none
    else none

/-- ISO strategy, number-before-code ordering ("100 CAD"). -/
def isoAfterAttempt (trimmed : Str) (numberFormat : Str) : Option Detection :=
  match searchG12 isoAfterRe trimmed with
  | none => none
  | some (whole, numStr, code) =>
    if ECB_CURRENCIES.contains code then
      match parseNumber numStr numberFormat with
      | none => none
      | some amount =>
        if 0 < amount then some ⟨amount, [code], whole, code⟩ else none
    else none

/-- One iteration of the symbol-before-number loop body. -/
def symOneBefore (trimmed : Str) (numberFormat : Str) (sym : Str) : Option Detection :=
  match searchG12 (symBeforeRe sym) trimmed with
  | none => none
  | some (whole, symStr, numStr) =>
    match parseNumber numStr numberFormat with
    | none => none
    | some amount =>
      if 0 < amount then
        let currencies := identifyCurrencies symStr
        if currencies = [] then none
        else some ⟨amount, currencies, whole, symStr⟩
      else none

/-- One iteration of the number-before-symbol loop body. -/
def symOneAfter (trimmed : Str) (numberFormat : Str) (sym : Str) : Option Detection :=
  match searchG12 (symAfterRe sym) trimmed with
  | none => none
  | some (whole, numStr, symStr) =>
    match parseNumber numStr numberFormat with
    | none => none
    | some amount =>
      if 0 < amount then
        let currencies := identifyCurrencies symStr
        if currencies = [] then none
        else some ⟨amount, currencies, whole, symStr⟩
      else none

/-- The symbol-before-number `for` loop over `sortedSymbols`. -/
def symBeforeAttempt (trimmed : Str) (numberFormat : Str) : Option Detection :=
  firstSome sortedSymbols (symOneBefore trimmed numberFormat)

/-- The number-before-symbol `for` loop over `sortedSymbols`. -/
def symAfterAttempt (trimmed : Str) (numberFormat : Str) : Option Detection :=
  firstSome sortedSymbols (symOneAfter trimmed numberFormat)

/-- `detectCurrency(text, numberFormat)` — the sequence of early returns of
the source, in source order. -/
def detectCurrency (text : Str) (numberFormat : Str) : Option Detection :=
  if text = [] ∨ 200 < text.length then none
  else
    let trimmed := jsTrim text
    let kwPart : Option Detection :=
      if sortedKeywords = [] then none
      else
        match kwAfterAttempt trimmed numberFormat with
        | some d => some d
        | none => kwBeforeAttempt trimmed numberFormat
    match kwPart with
    | some d => some d
    | none =>
      match isoBeforeAttempt trimmed numberFormat with
      | some d => some d
      | none =>
        match isoAfterAttempt trimmed numberFormat with
        | some d => some d
        | none =>
          match symBeforeAttempt trimmed numberFormat with
          | some d => some d
          | none => symAfterAttempt trimmed numberFormat

/-!
## The page scanner (src/content/page-scanner.js)

The document is modeled as a flat list of identified regions: plain text
nodes and composite price containers (`Slot`).  Nesting is abstracted away —
a composite container stands for the whole subtree whose concatenated text
it carries, and the skip rules of `scanCompositeElements` that deal with
nested candidates act only to shrink the candidate list, which the model's
events quantify over anyway.  Removal from the document sets an `alive`
flag to `false` (the JS node object stays referenced by pending
`animationend` callbacks after removal; `document.contains` is the `alive`
flag).  The deferred `animationend` callbacks are an explicit queue
(`pending`), fired by a separate `Event.complete` — the model of the
single-threaded, turn-based scheduling described in the spec.  `isScanning`
is always false at turn boundaries and is therefore not part of the state.
-/

/-- The scanner's settings snapshot (`config` in `init`/`updateSettings`). -/
structure ScanSettings where
  extensionEnabled : Bool
  conversionMode : Str
  disabledDomains : List Str
  targetCurrency : Str
  defaultDollarCurrency : Str
  numberFormat : Str
  autoReplaceLimit : Nat
deriving DecidableEq, Repr

/-- The injected rate table (`ratesData`); `none` models `null`. -/
abbrev RateTable := List (Str × ℚ)

/-- The wrapper span created by `replaceInTextNode`: either still fading
out (showing the original text) or swapped to the converted value. -/
inductive SpanInner where
  | fading (original : Str)
  | replaced (datasetOriginal : Str) (fromCurrency : Str) (shown : Str)
deriving DecidableEq, Repr

/-- A composite price container.  `isPriceCandidate` models matching the
`querySelectorAll('[class*="price"], …')` selector; `text` is
`textContent`; the two marks are the `cc-fading-out` / `cc-auto-replaced`
classes; the `dataset*` fields are the `data-` attributes set on swap. -/
structure CompositeEl where
  isPriceCandidate : Bool
  text : Str
  fading : Bool
  replacedMark : Bool
  datasetOriginal : Option Str
  datasetOriginalHtml : Option Str
  datasetFromCurrency : Option Str
deriving DecidableEq, Repr

/-- One region of the document. -/
inductive Slot where
  | textNode (s : Str)
  | split (before : Str) (inner : SpanInner) (after : Str)
  | composite (el : CompositeEl)
deriving DecidableEq, Repr

/-- A region together with its membership in the live document. -/
structure Region where
  alive : Bool
  slot : Slot
deriving DecidableEq, Repr

/-- A scheduled `animationend` continuation (fire-once listener). -/
inductive Pending where
  | textSwap (id : Nat) (fullOriginal : Str) (fromCurrency : Str) (converted : ℚ)
  | compSwap (id : Nat) (fullOriginal : Str) (originalHtml : Str)
      (fromCurrency : Str) (converted : ℚ)
deriving DecidableEq, Repr

/-- The scanner's module-level mutable state. -/
structure ScanState where
  isEnabled : Bool
  settings : ScanSettings
  rates : Option RateTable
  replacementCount : Nat
  doc : List (Nat × Region)
  pending : List Pending
deriving DecidableEq, Repr

def findRegion (st : ScanState) (id : Nat) : Option Region :=
  assocLookup st.doc id

def setSlot (st : ScanState) (id : Nat) (sl : Slot) : ScanState :=
  { st with doc := st.doc.map (fun p =>
      if p.1 = id then (p.1, { p.2 with slot := sl }) else p) }

def pushPending (st : ScanState) (p : Pending) : ScanState :=
  { st with pending := st.pending ++ [p] }

/-- Removal of a region from the document (e.g. a framework re-render). -/
def markDead (st : ScanState) (id : Nat) : ScanState :=
  { st with doc := st.doc.map (fun p =>
      if p.1 = id then (p.1, { p.2 with alive := false }) else p) }

/-- Visible text of a slot (`textContent` of the region). -/
def slotText : Slot → Str
  | .textNode s => s
  | .split b inner a =>
    b ++ (match inner with
          | .fading original => original
          | .replaced _ _ shown => shown) ++ a
  | .composite el => el.text

def regionText (st : ScanState) (id : Nat) : Option Str :=
  (findRegion st id).map (fun r => slotText r.slot)

/-!
### Conversion (`convertCurrencyLocal`, lines 575–602)

`!Number.isFinite(amount)` can never fire over exact rationals and the
`try`/`catch` wraps only total operations, so neither appears in the model.
A rate of `0` is falsy in `else if (rates[from])`, hence treated as
missing, which the model preserves.
-/

def EUR : Str := "EUR".data

/-- JS truthiness lookup `rates[c]` used as a guard. -/
def ratesTruthy (r : RateTable) (c : Str) : Option ℚ :=
  match assocLookup r c with
  | some v => if v = 0 then none else some v
  | none => none

/-- `convertCurrencyLocal(amount, from, to)` over injected `rates`. -/
def convertCurrencyLocal (rates : Option RateTable) (amount : ℚ)
    (fromC toC : Str) : Option ℚ :=
  match rates with
  | none => none
  | some r =>
    if fromC = toC then none
    else
      let amountInEur? : Option ℚ :=
        if fromC = EUR then some amount
        else (ratesTruthy r fromC).map (fun rf => amount / rf)
      match amountInEur? with
      | none => none
      | some amountInEur =>
        if toC = EUR then some amountInEur
        else (ratesTruthy r toC).map (fun rt => amountInEur * rt)

/-!
### Display formatting

`formatAmount` calls `toLocaleString` whose output is environment-dependent
(grouping separators, locale digits); the model renders a fixed-point
decimal with the same fraction-digit policy.  No claim constrains the
rendered replacement string, only that the original text is stored and
restored, so this idealization is harmless.
-/

/-- Modelled from the spec: `LIMITS.MAX_SELECTION_LENGTH` — the constants
module defining `LIMITS` is not under `src/`; the spec only says overlong
strings are rejected by the caller's cap.  The value is irrelevant to every
claim (the guard commutes with all of them); `200` matches the detector's
own cap. -/
def MAX_SELECTION_LENGTH : Nat := 200

/-- Modelled from the spec: `CURRENCY_CODE_TO_SYMBOL` — its defining
constants module is not under `src/`; it only affects the displayed
replacement string (`… || settings.targetCurrency` fallback), which no
claim constrains.  Modeled as the empty table so the fallback is taken. -/
def CURRENCY_CODE_TO_SYMBOL : List (Str × Str) := []

def codeSymbol (target : Str) : Str :=
  match assocLookup CURRENCY_CODE_TO_SYMBOL target with
  | some s => s
  | none => target

/-- Fixed-point rendering (round half up) used by the `formatAmount`
model. -/
def renderFixed (q : ℚ) (digits : ℕ) : Str :=
  let scaled : ℤ := Int.floor (q * (10 : ℚ) ^ digits + 1 / 2)
  let sgn : Str := if scaled < 0 then ['-'] else []
  let ds : Str := Nat.toDigits 10 scaled.natAbs
  if digits = 0 then sgn ++ ds
  else
    let padded := if ds.length ≤ digits then
        List.replicate (digits + 1 - ds.length) '0' ++ ds
      else ds
    sgn ++ padded.take (padded.length - digits) ++ ['.'] ++
      padded.drop (padded.length - digits)

/-- `formatAmount(amount, currencyCode)`. -/
def formatAmount (amount : ℚ) (currencyCode : Str) : Str :=
  let digits : ℕ := if ZERO_DECIMAL_CURRENCIES.contains currencyCode then 0 else 2
  renderFixed amount digits

/-- The text written into a replaced region:
`formatAmount(converted, target) + ' ' + symbol`. -/
def renderedReplacement (converted : ℚ) (target : Str) : Str :=
  formatAmount converted target ++ [' '] ++ codeSymbol target

/-!
### Replacement (lines 391–528 and 547–818)
-/

/-- Ambiguity resolution inlined in both `process*` functions:
`currencies[0]`, overridden by `defaultDollarCurrency` when present in a
multi-candidate list. -/
def resolveFromCurrency (d : Detection) (s : ScanSettings) : Str :=
  let fromCurrency := d.currencies.headD []
  if 1 < d.currencies.length ∧ d.currencies.contains s.defaultDollarCurrency
  then s.defaultDollarCurrency else fromCurrency

def symbolKeys : List Str := CURRENCY_SYMBOLS.map Prod.fst

/-- The orphaned-symbol extension of `replaceInTextNode` (lines 661–675):
if a currency symbol (plus trailing whitespace) immediately precedes the
match, fold it into the replaced span. -/
def orphanExtend (text : Str) (matchStart : Nat) (original : Str) : Nat × Str :=
  if matchStart = 0 then (matchStart, original)
  else
    let beforeMatch := jsTrimEnd (text.take matchStart)
    match firstSome symbolKeys (fun sym =>
        if strEndsWith beforeMatch sym then some sym else none) with
    | none => (matchStart, original)
    | some sym =>
      let symbolStart := beforeMatch.length - sym.length
      let whitespace := slice text (symbolStart + sym.length) matchStart
      (symbolStart, sym ++ whitespace ++ original)

/-- `replaceInTextNode` — the synchronous phase: split the text node around
the (possibly extended) match, insert the fading span, and register the
fire-once `animationend` listener.  The early aborts (`indexOf === -1`; a
missing parent cannot occur for a live region of the model) leave the state
unchanged — note that the caller still increments `replacementCount`
afterwards. -/
def replaceInTextNode (st : ScanState) (id : Nat) (text : Str) (d : Detection)
    (fromCurrency : Str) (converted : ℚ) : ScanState :=
  match strIndexOf text d.original with
  | none => st
  | some matchStart =>
    let ext := orphanExtend text matchStart d.original
    let before := text.take ext.1
    let after := text.drop (ext.1 + ext.2.length)
    pushPending (setSlot st id (.split before (.fading ext.2) after))
      (.textSwap id ext.2 fromCurrency converted)

/-- `processTextNode(textNode)` (lines 547–570).  The `replacementCount++`
runs unconditionally after `replaceInTextNode` returns, exactly as in the
source. -/
def processTextNode (st : ScanState) (id : Nat) : ScanState :=
  match findRegion st id with
  | some ⟨true, Slot.textNode text⟩ =>
    if text = [] ∨ MAX_SELECTION_LENGTH * 2 < text.length then st
    else
      match detectCurrency text st.settings.numberFormat with
      | none => st
      | some detection =>
        let fromCurrency := resolveFromCurrency detection st.settings
        if fromCurrency = st.settings.targetCurrency then st
        else
          match convertCurrencyLocal st.rates detection.amount fromCurrency
              st.settings.targetCurrency with
          | none => st
          | some converted =>
            let st2 := replaceInTextNode st id text detection fromCurrency converted
            { st2 with replacementCount := st2.replacementCount + 1 }
  | _ => st

/-- `replaceCompositeElement` — the synchronous phase: capture
`textContent.trim()` and `innerHTML` (the flat model carries the text for
both), add the fading class, register the fire-once listener. -/
def replaceCompositeElement (st : ScanState) (id : Nat) (el : CompositeEl)
    (fromCurrency : Str) (converted : ℚ) : ScanState :=
  let fullOriginal := jsTrim el.text
  let originalHTML := el.text
  pushPending (setSlot st id (.composite { el with fading := true }))
    (.compSwap id fullOriginal originalHTML fromCurrency converted)

/-- `processCompositeElement(element)` (lines 391–423), including the
50-character cap and the surgical guard (`original < 50%` of a `> 15`-char
text).  As in the text path, `replacementCount++` runs right after the
replacement is scheduled. -/
def processCompositeElement (st : ScanState) (id : Nat) : ScanState :=
  match findRegion st id with
  | some ⟨true, Slot.composite el⟩ =>
    let text := jsTrim el.text
    if text = [] ∨ 50 < text.length then st
    else
      match detectCurrency text st.settings.numberFormat with
      | none => st
      | some detection =>
        let fromCurrency := resolveFromCurrency detection st.settings
        if fromCurrency = st.settings.targetCurrency then st
        else
          if 15 < text.length ∧ 2 * detection.original.length < text.length then st
          else
            match convertCurrencyLocal st.rates detection.amount fromCurrency
                st.settings.targetCurrency with
            | none => st
            | some converted =>
              let st2 := replaceCompositeElement st id el fromCurrency converted
              { st2 with replacementCount := st2.replacementCount + 1 }
  | _ => st

/-- Firing of the `k`-th pending `animationend` continuation, with the
liveness guards of both callbacks: if the span/element has been removed
from the document, nothing is mutated and no error is raised (the listener
is still consumed — it was registered `{ once: true }`). -/
def completeAnim (st : ScanState) (k : Nat) : ScanState :=
  match st.pending.get? k with
  | none => st
  | some p =>
    let st1 := { st with pending := st.pending.eraseIdx k }
    match p with
    | .textSwap id fullOriginal fromC converted =>
      match findRegion st1 id with
      | some ⟨true, Slot.split b (SpanInner.fading _) a⟩ =>
        setSlot st1 id (.split b
          (.replaced fullOriginal fromC
            (renderedReplacement converted st1.settings.targetCurrency)) a)
      | _ => st1
    | .compSwap id fullOriginal originalHTML fromC converted =>
      match findRegion st1 id with
      | some ⟨true, Slot.composite el⟩ =>
        setSlot st1 id (.composite { el with
          fading := false
          replacedMark := true
          datasetOriginal := some fullOriginal
          datasetOriginalHtml := some originalHTML
          datasetFromCurrency := some fromC
          text := renderedReplacement converted st1.settings.targetCurrency })
      | _ => st1

/-!
### Restoration (lines 891–941)
-/

/-- `restoreElement(element)`: guarded by `dataset.original` and a live
parent; on success replaces the marked region by a text node holding the
stored original and decrements the count, floored at 0 (`Math.max`;
`Nat` subtraction).  Only elements found by `restoreAll`'s document query
reach it, so dead regions are never restored. -/
def restoreElement (st : ScanState) (id : Nat) : ScanState :=
  match findRegion st id with
  | some ⟨alive, sl⟩ =>
    match sl with
    | .split b (SpanInner.replaced dsOrig _ _) a =>
      if alive then
        { setSlot st id (.textNode (b ++ dsOrig ++ a)) with
          replacementCount := st.replacementCount - 1 }
      else st
    | .composite el =>
      match el.datasetOriginal with
      | some orig =>
        if alive then
          { setSlot st id (.textNode orig) with
            replacementCount := st.replacementCount - 1 }
        else st
      | none => st
    | _ => st
  | none => st

/-- Does `querySelectorAll('.cc-auto-replaced')` find this region? -/
def isReplacedRegion : Slot → Bool
  | .split _ (SpanInner.replaced ..) _ => true
  | .composite el => el.replacedMark
  | _ => false

/-- `restoreAll()`: restore every marked live region, then reset the count
to 0. -/
def restoreAll (st : ScanState) : ScanState :=
  let ids := (st.doc.filter (fun p => p.2.alive && isReplacedRegion p.2.slot)).map Prod.fst
  let st1 := ids.foldl restoreElement st
  { st1 with replacementCount := 0 }

/-!
### Scan passes (lines 239–301, 307–386, 1035–1087)

A `break` on reaching the limit is modeled as a guard at the top of each
fold step: the count is monotone within a pass, so once the guard holds it
holds for every remaining candidate and the rest of the fold is the
identity — exactly the effect of `break`.
-/

/-- `querySelectorAll('[class*="price"], …')` over the live document. -/
def candidateIds (st : ScanState) : List Nat :=
  (st.doc.filter (fun p =>
    p.2.alive && (match p.2.slot with
      | .composite el => el.isPriceCandidate
      | _ => false))).map Prod.fst

/-- The composite loop of `scanCompositeElements` over a candidate list:
skip already-replaced containers (the descendant/nesting skips of the
source are vacuous in the flat model), stop at the budget. -/
def compositePass (st : ScanState) (ids : List Nat) : ScanState :=
  ids.foldl (fun s id =>
    if s.settings.autoReplaceLimit ≤ s.replacementCount then s
    else
      match findRegion s id with
      | some ⟨true, Slot.composite el⟩ =>
        if el.replacedMark then s
        else processCompositeElement s id
      | _ => s) st

/-- The tree-walker collection of `scanNode`: live, non-empty text nodes
(`shouldSkipNode`'s ancestor checks are vacuous in the flat model). -/
def textIds (st : ScanState) : List Nat :=
  (st.doc.filter (fun p =>
    p.2.alive && (match p.2.slot with
      | .textNode s => !(jsTrim s).isEmpty
      | _ => false))).map Prod.fst

/-- The text-node loop of `scanNode`. -/
def textPass (st : ScanState) (ids : List Nat) : ScanState :=
  ids.foldl (fun s id =>
    if s.settings.autoReplaceLimit ≤ s.replacementCount then s
    else processTextNode s id) st

/-- `scanNode(document.body)`: entry budget guard, composite pass, then
text pass. -/
def scanBody (st : ScanState) : ScanState :=
  if st.settings.autoReplaceLimit ≤ st.replacementCount then st
  else
    let st1 := compositePass st (candidateIds st)
    textPass st1 (textIds st1)

/-- `scanPage()`: the `isEnabled` / `rates` guards (`isScanning` is always
false at a turn boundary). -/
def scanPage (st : ScanState) : ScanState :=
  if !st.isEnabled || st.rates.isNone then st
  else scanBody st

/-- One node of the debounced mutation batch (lines 1056–1078): dropped
silently if no longer in the document, else `scanNode` for elements /
`processTextNode` for text nodes.  In the flat model an added element
stands for its subtree's single composite candidate. -/
def processBatchNode (s : ScanState) (id : Nat) : ScanState :=
  match findRegion s id with
  | some ⟨true, Slot.composite _⟩ =>
    if s.settings.autoReplaceLimit ≤ s.replacementCount then s
    else compositePass s [id]
  | some ⟨true, Slot.textNode _⟩ => processTextNode s id
  | _ => s

/-- The debounced batch-processing loop, with its per-node budget guard. -/
def processBatch (st : ScanState) (ids : List Nat) : ScanState :=
  ids.foldl (fun s id =>
    if s.settings.autoReplaceLimit ≤ s.replacementCount then s
    else processBatchNode s id) st

/-!
### Events and traces

The external entry points that can fire between turns, per §5 of the spec:
scan passes, debounced batches, transition completions, concurrent
removals, restorations.  (Settings updates are excluded — claim C1
quantifies over scans and restorations only.)
-/

inductive Event where
  | scan
  | batch (ids : List Nat)
  | complete (k : Nat)
  | remove (id : Nat)
  | restoreOne (id : Nat)
  | restoreEverything
deriving Repr

def step (st : ScanState) : Event → ScanState
  | .scan => scanPage st
  | .batch ids => processBatch st ids
  | .complete k => completeAnim st k
  | .remove id => markDead st id
  | .restoreOne id => restoreElement st id
  | .restoreEverything => restoreAll st

def run (st : ScanState) (es : List Event) : ScanState :=
  es.foldl step st

/-- The region a pending transition targets. -/
def pendingId : Pending → Nat
  | .textSwap id _ _ _ => id
  | .compSwap id _ _ _ _ => id

/-- Has the region been removed from the live document
(`document.contains` is false, or it never existed)? -/
def regionDetached (st : ScanState) (id : Nat) : Bool :=
  match findRegion st id with
  | some r => !r.alive
  | none => true

/-- `shouldBeEnabled(config)` for a given hostname. -/
def shouldBeEnabled (config : ScanSettings) (hostname : Str) : Bool :=
  if !config.extensionEnabled || config.conversionMode != ("auto".data) then false
  else if config.disabledDomains.contains hostname then false
  else true

/-- `init(config, ratesData)`: the state after initialization (the initial
scan itself is the first `Event.scan` of a trace). -/
def initScanner (config : ScanSettings) (ratesData : Option RateTable)
    (hostname : Str) (doc : List (Nat × Region)) : ScanState :=
  { isEnabled := shouldBeEnabled config hostname
    settings := config
    rates := ratesData
    replacementCount := 0
    doc := doc
    pending := [] }

/-!
### Strategy groupings

The three strategies of §4.2, each grouping the two orderings the source
tries in sequence.  `detectCurrency` above is the direct translation of the
source's early-return chain; claim C4 relates it to these groupings.
-/

/-- Keyword strategy: number-before-keyword, then keyword-before-number,
guarded by a non-empty keyword pattern as in the source. -/
def kwStrategy (trimmed : Str) (numberFormat : Str) : Option Detection :=
  if sortedKeywords = [] then none
  else
    match kwAfterAttempt trimmed numberFormat with
    | some d => some d
    | none => kwBeforeAttempt trimmed numberFormat

/-- ISO strategy: code-before-number, then number-before-code. -/
def isoStrategy (trimmed : Str) (numberFormat : Str) : Option Detection :=
  match isoBeforeAttempt trimmed numberFormat with
  | some d => some d
  | none => isoAfterAttempt trimmed numberFormat

/-- Symbol strategy: symbol-before-number loop, then number-before-symbol
loop. -/
def symStrategy (trimmed : Str) (numberFormat : Str) : Option Detection :=
  match symBeforeAttempt trimmed numberFormat with
  | some d => some d
  | none => symAfterAttempt trimmed numberFormat

/-!
### Concrete fixtures used by witnesses and counterexamples
-/

/-- All six dollar codes, the value of `CURRENCY_SYMBOLS['$']`. -/
def dollarCodes : List Str :=
  (["USD", "AUD", "CAD", "NZD", "SGD", "HKD"] : List String).map String.data

/-- A text where the keyword strategy and the symbol strategy both find a
candidate; priority must give the keyword one. -/
def c4text : Str := "5 dollars and €3".data

/-- The keyword detection for `c4text`. -/
def c4det : Detection :=
  { amount := 5, currencies := ["USD".data], original := "5 dollars".data,
    symbol := "dollars".data }

/-- A text whose only symbol occurrence is immediately preceded by the
alphanumeric character `c`. -/
def c6text : Str := "abc$5".data

/-- The detection the source produces for `c6text`. -/
def c6det : Detection :=
  { amount := 5, currencies := dollarCodes, original := "$5".data,
    symbol := "$".data }

/-- A plain symbol-prefixed amount. -/
def c8text : Str := "$5".data

/-- The detection for `c8text`. -/
def c8det : Detection :=
  { amount := 5, currencies := dollarCodes, original := "$5".data,
    symbol := "$".data }

/-- A numeric literal with two dots whose final group has length ≤ 2. -/
def c5bad : Str := "1.000.50".data

/-- Scanner settings used by the concrete traces. -/
def exSettings : ScanSettings :=
  { extensionEnabled := true, conversionMode := "auto".data, disabledDomains := [],
    targetCurrency := "EUR".data, defaultDollarCurrency := "USD".data,
    numberFormat := "auto".data, autoReplaceLimit := 10 }

/-- Rates as produced by `fetchRates`: positive, with `EUR = 1`. -/
def exRates : RateTable := [("EUR".data, 1), ("USD".data, 2)]

/-- A composite price container whose `textContent` carries surrounding
whitespace. -/
def exCompositeEl : CompositeEl :=
  { isPriceCandidate := true, text := " $5 ".data, fading := false,
    replacedMark := false, datasetOriginal := none, datasetOriginalHtml := none,
    datasetFromCurrency := none }

/-- Initial state: one composite price container. -/
def exCompState : ScanState :=
  initScanner exSettings (some exRates) ("example.com".data)
    [(0, { alive := true, slot := Slot.composite exCompositeEl })]

/-- Initial state: one plain text node around a dollar amount. -/
def exTextState : ScanState :=
  initScanner exSettings (some exRates) ("example.com".data)
    [(1, { alive := true, slot := Slot.textNode ("pay $5 now".data) })]

/-- Settings with a replacement budget of 3. -/
def exBudgetSettings : ScanSettings :=
  { exSettings with autoReplaceLimit := 3 }

/-- Five convertible text nodes. -/
def exBudgetDoc : List (Nat × Region) :=
  (List.range 5).map (fun i =>
    (i, { alive := true, slot := Slot.textNode ("$5 deal".data) }))

/-- Initial state for the budget witness. -/
def exBudgetState : ScanState :=
  initScanner exBudgetSettings (some exRates) ("example.com".data) exBudgetDoc

/-- A text whose detected currency (`CAD`) has no rate in `exRates`. -/
def exMissState : ScanState :=
  initScanner exSettings (some exRates) ("example.com".data)
    [(3, { alive := true, slot := Slot.textNode ("9 CAD".data) })]

/-- The detection for `"9 CAD"`. -/
def cadDet : Detection :=
  { amount := 9, currencies := ["CAD".data], original := "9 CAD".data,
    symbol := "CAD".data }

/-- A 60-character composite text (over the 50-character cap). -/
def exLongEl : CompositeEl :=
  { isPriceCandidate := true, text := List.replicate 60 '9', fading := false,
    replacedMark := false, datasetOriginal := none, datasetOriginalHtml := none,
    datasetFromCurrency := none }

/-- Initial state: one over-long composite container. -/
def exLongState : ScanState :=
  initScanner exSettings (some exRates) ("example.com".data)
    [(0, { alive := true, slot := Slot.composite exLongEl })]

/-- A 201-character text (over the detector's 200-character cap). -/
def exLongText : Str := List.replicate 201 'x'

/-!
# Theorems

Helper lemmas first, then one theorem per claim (with witnesses and
counterexamples where required).
-/

/-!
## Helper lemmas about `jsIndexOf`
-/

/-- Remove the first occurrence of `a` (specification device for C9's
"other candidates keep their relative order"). -/
def eraseFirst [DecidableEq α] : List α → α → List α
  | [], _ => []
  | x :: t, a => if x = a then t else x :: eraseFirst t a

theorem eraseFirst_sublist [DecidableEq α] (a : α) :
    ∀ l : List α, (eraseFirst l a).Sublist l := by
  intro l
  induction l with
  | nil => exact List.Sublist.refl []
  | cons x t ih =>
    by_cases hx : x = a
    · simp only [eraseFirst, if_pos hx]
      exact List.sublist_cons_self x t
    · simp only [eraseFirst, if_neg hx]
      exact List.Sublist.cons₂ x ih

theorem jsIndexOf_of_not_mem [DecidableEq α] {a : α} :
    ∀ {l : List α}, a ∉ l → jsIndexOf l a = none := by
  intro l
  induction l with
  | nil => intro _; rfl
  | cons x t ih =>
    intro h
    simp only [List.mem_cons, not_or] at h
    have hxa : ¬ x = a := fun hx => h.1 hx.symm
    simp only [jsIndexOf, if_neg hxa, ih h.2, Option.map_none']

theorem jsIndexOf_of_mem [DecidableEq α] {a : α} :
    ∀ {l : List α}, a ∈ l → ∃ i, jsIndexOf l a = some i := by
  intro l
  induction l with
  | nil => intro h; exact absurd h (List.not_mem_nil a)
  | cons x t ih =>
    intro h
    by_cases hx : x = a
    · exact ⟨0, by simp [jsIndexOf, hx]⟩
    · rcases ih (by
        rcases List.mem_cons.mp h with h1 | h2
        · exact absurd h1.symm hx
        · exact h2) with ⟨i, hi⟩
      exact ⟨i + 1, by simp [jsIndexOf, hx, hi]⟩

theorem jsIndexOf_eraseIdx [DecidableEq α] {a : α} :
    ∀ {l : List α} {i : Nat}, jsIndexOf l a = some i → l.eraseIdx i = eraseFirst l a := by
  intro l
  induction l with
  | nil => intro i h; exact absurd h (by simp [jsIndexOf])
  | cons x t ih =>
    intro i h
    by_cases hx : x = a
    · subst hx
      have h0 : i = 0 := by
        simp [jsIndexOf] at h
        omega
      subst h0
      simp [List.eraseIdx, eraseFirst]
    · simp only [jsIndexOf, if_neg hx] at h
      rcases Option.map_eq_some'.mp h with ⟨j, hj, hji⟩
      subst hji
      simp [List.eraseIdx, ih hj, eraseFirst, hx]

/-!
## C9 — ambiguity resolver
-/

/-- C9: for every candidate list and preferred code, `reorderCurrencies`
moves the preferred code to the front when it is present and not already
first (the remaining candidates keeping their relative order, being the
erase-one-occurrence sublist), and returns the list unchanged when the
preferred code is unset, absent, or already first. -/
theorem reorderCurrencies_spec (cs : List Str) (p : Str) :
    (p = [] → reorderCurrencies cs p = cs)
    ∧ (p ∉ cs → reorderCurrencies cs p = cs)
    ∧ (cs.head? = some p → reorderCurrencies cs p = cs)
    ∧ (p ≠ [] → p ∈ cs → cs.head? ≠ some p →
        reorderCurrencies cs p = p :: eraseFirst cs p ∧ (eraseFirst cs p).Sublist cs) := by
  refine ⟨fun h => by simp [reorderCurrencies, h], fun h => ?_, fun h => ?_, fun h1 h2 h3 => ?_⟩
  · unfold reorderCurrencies
    rw [jsIndexOf_of_not_mem h]
    simp
  · cases cs with
    | nil => simp at h
    | cons x t =>
      simp only [List.head?_cons, Option.some.injEq] at h
      subst h
      unfold reorderCurrencies
      simp [jsIndexOf]
  · cases cs with
    | nil => simp at h2
    | cons x t =>
      simp only [List.head?_cons, ne_eq, Option.some.injEq] at h3
      have hx : ¬ x = p := h3
      have hmem : p ∈ t := by
        rcases List.mem_cons.mp h2 with h | h
        · exact absurd h.symm hx
        · exact h
      rcases jsIndexOf_of_mem hmem with ⟨i, hi⟩
      have hfull : jsIndexOf (x :: t) p = some (i + 1) := by
        simp [jsIndexOf, hx, hi]
      constructor
      · unfold reorderCurrencies
        rw [if_neg h1, hfull]
        have hne : ¬ (i + 1 = 0) := Nat.succ_ne_zero i
        simp only [hne, if_false, ite_false, jsIndexOf_eraseIdx hfull]
      · exact eraseFirst_sublist p (x :: t)

/-- Witness for C9 at a concrete input: `AUD` is present and second, so it
is moved to the front and the others keep their order. -/
theorem reorderCurrencies_spec_witness :
    reorderCurrencies (["USD", "AUD", "CAD"].map String.data) ("AUD".data)
      = (["AUD", "USD", "CAD"].map String.data) := by
  have h := (reorderCurrencies_spec (["USD", "AUD", "CAD"].map String.data)
    ("AUD".data)).2.2.2 (by decide) (by decide) (by decide)
  rw [h.1]
  decide

/-!
## C10 — undocumented 50-character composite cap
-/

/-- C10: a composite container whose trimmed text is empty or longer than
50 characters is skipped before any detection runs — the scanner state
(including `replacementCount` and the document) is unchanged — while the
detector itself only rejects texts longer than 200 characters. -/
theorem composite_length_cap :
    (∀ st id el, findRegion st id = some ⟨true, Slot.composite el⟩ →
        jsTrim el.text = [] ∨ 50 < (jsTrim el.text).length →
        processCompositeElement st id = st)
    ∧ (∀ t fmt, 200 < t.length → detectCurrency t fmt = none) := by
  constructor
  · intro st id el h hlen
    unfold processCompositeElement
    rw [h]
    simp only [if_pos hlen]
  · intro t fmt h
    unfold detectCurrency
    rw [if_pos (Or.inr h)]

/-- Witness for C10: a live 60-character composite container is skipped
whole, and a 201-character text is rejected by the detector. -/
theorem composite_length_cap_witness :
    processCompositeElement exLongState 0 = exLongState
    ∧ detectCurrency exLongText autoFmt = none := by
  exact ⟨composite_length_cap.1 exLongState 0 exLongEl (by decide) (by decide),
    composite_length_cap.2 exLongText autoFmt (by decide)⟩

/-!
## Character and list facts used by the `parseNumber` analysis
-/

theorem digit_not_ws {c : Char} (h : isDigitChar c = true) : isJsWhitespace c = false := by
  simp only [isDigitChar, Bool.and_eq_true, decide_eq_true_eq] at h
  simp only [isJsWhitespace, Bool.or_eq_false_iff, beq_eq_false_iff_ne, ne_eq,
    Bool.and_eq_false_iff, decide_eq_false_iff_not, not_le]
  omega

theorem digit_ne {c d : Char} (hc : isDigitChar c = true) (hd : isDigitChar d = false) :
    c ≠ d := by
  intro h
  rw [h, hd] at hc
  exact Bool.false_ne_true hc

theorem dropWhile_all_false {p : Char → Bool} :
    ∀ {s : Str}, (∀ c ∈ s, p c = false) → s.dropWhile p = s := by
  intro s h
  cases s with
  | nil => rfl
  | cons x t => simp [List.dropWhile, h x (List.mem_cons_self x t)]

theorem takeWhile_all {p : Char → Bool} :
    ∀ {s : Str}, (∀ c ∈ s, p c = true) →
      s.takeWhile p = s ∧ s.dropWhile p = [] := by
  intro s
  induction s with
  | nil => intro _; exact ⟨rfl, rfl⟩
  | cons x t ih =>
    intro h
    have hx := h x (List.mem_cons_self x t)
    have ht := ih (fun c hc => h c (List.mem_cons_of_mem x hc))
    simp [List.takeWhile, List.dropWhile, hx, ht.1, ht.2]

theorem takeWhile_append_stop {p : Char → Bool} {x : Char} {b : Str} (hx : p x = false) :
    ∀ (a : Str), (∀ c ∈ a, p c = true) →
      (a ++ x :: b).takeWhile p = a ∧ (a ++ x :: b).dropWhile p = x :: b := by
  intro a
  induction a with
  | nil => intro _; simp [List.takeWhile, List.dropWhile, hx]
  | cons y t ih =>
    intro h
    have hy := h y (List.mem_cons_self y t)
    have ht := ih (fun c hc => h c (List.mem_cons_of_mem y hc))
    simp [List.takeWhile, List.dropWhile, hy, ht.1, ht.2]

theorem jsTrim_eq_self {s : Str} (h : ∀ c ∈ s, isJsWhitespace c = false) :
    jsTrim s = s := by
  unfold jsTrim
  rw [dropWhile_all_false h,
    dropWhile_all_false (fun c hc => h c (List.mem_reverse.mp hc)),
    List.reverse_reverse]

theorem wsFilter_eq_self {s : Str} (h : ∀ c ∈ s, isJsWhitespace c = false) :
    s.filter (fun c => !(isJsWhitespace c)) = s :=
  List.filter_eq_self.mpr (fun a ha => by rw [h a ha]; rfl)

theorem lastIndexOfChar_of_not_mem {c : Char} :
    ∀ {s : Str}, c ∉ s → lastIndexOfChar s c = none := by
  intro s
  induction s with
  | nil => intro _; rfl
  | cons x t ih =>
    intro h
    simp only [List.mem_cons, not_or] at h
    have hx : ¬ x = c := fun hx => h.1 (hx ▸ rfl)
    simp [lastIndexOfChar, ih h.2, hx]

theorem lastIndexOfChar_append_last {c : Char} {b : Str} (hb : c ∉ b) :
    ∀ (a : Str), lastIndexOfChar (a ++ c :: b) c = some a.length := by
  intro a
  induction a with
  | nil => simp [lastIndexOfChar, lastIndexOfChar_of_not_mem hb]
  | cons y t ih => simp [lastIndexOfChar, ih]

theorem lastIndexOfChar_append_right {c : Char} {b : Str} (hb : c ∉ b) :
    ∀ (a : Str), lastIndexOfChar (a ++ b) c = lastIndexOfChar a c := by
  intro a
  induction a with
  | nil => simp [lastIndexOfChar, lastIndexOfChar_of_not_mem hb]
  | cons y t ih => simp [lastIndexOfChar, ih]

theorem lastIndexOfChar_lt_length {c : Char} :
    ∀ {s : Str} {i : Nat}, lastIndexOfChar s c = some i → i < s.length := by
  intro s
  induction s with
  | nil => intro i h; exact absurd h (by simp [lastIndexOfChar])
  | cons x t ih =>
    intro i h
    simp only [lastIndexOfChar] at h
    cases ht : lastIndexOfChar t c with
    | some n =>
      rw [ht] at h
      cases h
      exact Nat.succ_lt_succ (ih ht)
    | none =>
      rw [ht] at h
      by_cases hx : x = c
      · rw [if_pos hx] at h
        cases h
        exact Nat.succ_le_succ (Nat.zero_le _)
      · rw [if_neg hx] at h
        cases h

theorem lastIndexOfChar_of_mem {c : Char} :
    ∀ {s : Str}, c ∈ s → ∃ i, lastIndexOfChar s c = some i := by
  intro s
  induction s with
  | nil => intro h; exact absurd h (List.not_mem_nil c)
  | cons x t ih =>
    intro h
    by_cases hmem : c ∈ t
    · rcases ih hmem with ⟨i, hi⟩
      exact ⟨i + 1, by simp [lastIndexOfChar, hi]⟩
    · have hx : x = c := by
        rcases List.mem_cons.mp h with h1 | h2
        · exact h1.symm
        · exact absurd h2 hmem
      exact ⟨0, by simp [lastIndexOfChar, lastIndexOfChar_of_not_mem hmem, hx]⟩

theorem replaceFirstChar_append (c d : Char) :
    ∀ {a : Str}, c ∉ a → ∀ (b : Str),
      replaceFirstChar (a ++ c :: b) c d = a ++ d :: b := by
  intro a
  induction a with
  | nil => intro _ b; simp [replaceFirstChar]
  | cons y t ih =>
    intro h b
    simp only [List.mem_cons, not_or] at h
    have hy : ¬ y = c := fun hy => h.1 hy.symm
    simp [replaceFirstChar, hy, ih h.2 b]

theorem replaceFirstChar_of_not_mem (c d : Char) :
    ∀ {a : Str}, c ∉ a → replaceFirstChar a c d = a := by
  intro a
  induction a with
  | nil => intro _; rfl
  | cons y t ih =>
    intro h
    simp only [List.mem_cons, not_or] at h
    have hy : ¬ y = c := fun hy => h.1 hy.symm
    simp [replaceFirstChar, hy, ih h.2]

theorem removeAllChar_append (a b : Str) (c : Char) :
    removeAllChar (a ++ b) c = removeAllChar a c ++ removeAllChar b c := by
  simp [removeAllChar, List.filter_append]

theorem removeAllChar_cons_self (b : Str) (c : Char) :
    removeAllChar (c :: b) c = removeAllChar b c := by
  simp [removeAllChar]

theorem removeAllChar_of_not_mem {c : Char} {s : Str} (h : c ∉ s) :
    removeAllChar s c = s := by
  refine List.filter_eq_self.mpr (fun a ha => ?_)
  have : a ≠ c := fun hac => h (hac ▸ ha)
  simp [this]

theorem allDigits_removeAllChar_dot {s : Str} (h : digitsOrDot s) :
    allDigits (removeAllChar s '.') := by
  intro c hc
  rcases List.mem_filter.mp hc with ⟨hmem, hne⟩
  rcases h c hmem with hd | hdot
  · exact hd
  · simp [hdot] at hne

theorem allDigits_removeAllChar_comma {s : Str} (h : digitsOrComma s) :
    allDigits (removeAllChar s ',') := by
  intro c hc
  rcases List.mem_filter.mp hc with ⟨hmem, hne⟩
  rcases h c hmem with hd | hcomma
  · exact hd
  · simp [hcomma] at hne

theorem removeAllChar_of_allDigits_dot {s : Str} (h : allDigits s) :
    removeAllChar s '.' = s :=
  removeAllChar_of_not_mem (fun hmem => by
    have := h '.' hmem
    simp [isDigitChar] at this)

theorem removeAllChar_of_allDigits_comma {s : Str} (h : allDigits s) :
    removeAllChar s ',' = s :=
  removeAllChar_of_not_mem (fun hmem => by
    have := h ',' hmem
    simp [isDigitChar] at this)

theorem not_mem_of_allDigits {s : Str} {c : Char} (h : allDigits s)
    (hc : isDigitChar c = false) : c ∉ s := fun hmem => by
  rw [h c hmem] at hc
  exact Bool.noConfusion hc

/-!
## `parseFloatQ` on canonical digit strings
-/

/-- `digitsVal` of the empty string. -/
theorem digitsVal_nil : digitsVal [] = 0 := rfl

/-- `parseFloat` of a plain digit string is its numeric value. -/
theorem parseFloatQ_digits {s : Str} (hne : s ≠ []) (hd : allDigits s) :
    parseFloatQ s = some ((digitsVal s : ℚ)) := by
  obtain ⟨c, t, rfl⟩ : ∃ c t, s = c :: t := by
    cases s with
    | nil => exact absurd rfl hne
    | cons c t => exact ⟨c, t, rfl⟩
  have hc : isDigitChar c = true := hd c (List.mem_cons_self c t)
  have hnw : (c :: t).dropWhile isJsWhitespace = c :: t :=
    dropWhile_all_false (fun x hx => digit_not_ws (hd x hx))
  have hcm : ¬ c = '-' := digit_ne hc (by decide)
  have hcp : ¬ c = '+' := digit_ne hc (by decide)
  have hor : ¬ (c = '-' ∨ c = '+') := by rintro (h | h); exact hcm h; exact hcp h
  have htake := @takeWhile_all isDigitChar (c :: t) hd
  unfold parseFloatQ
  rw [hnw]
  simp only [List.head?_cons, Option.some.injEq, if_neg hcm, if_neg hor,
    htake.1, htake.2, List.head?_nil, reduceCtorEq, ite_false,
    List.cons_ne_nil, false_and, if_false, digitsVal_nil, Nat.cast_zero,
    zero_div, add_zero, zpow_zero, mul_one, one_mul, List.length_nil,
    pow_zero, div_one]
  simp

/-- `parseFloat` of `intPart.fracPart` (both non-empty digit strings) is the
decimal value. -/
theorem parseFloatQ_dec {a b : Str} (ha : a ≠ [])
    (hda : allDigits a) (hdb : allDigits b) :
    parseFloatQ (a ++ '.' :: b) = some (decVal a b) := by
  obtain ⟨c, t, rfl⟩ : ∃ c t, a = c :: t := by
    cases a with
    | nil => exact absurd rfl ha
    | cons c t => exact ⟨c, t, rfl⟩
  have hc : isDigitChar c = true := hda c (List.mem_cons_self c t)
  have hnw : (c :: (t ++ '.' :: b)).dropWhile isJsWhitespace = c :: (t ++ '.' :: b) :=
    dropWhile_all_false (fun x hx => by
      rcases List.mem_cons.mp hx with h1 | h1
      · subst h1; exact digit_not_ws hc
      · rcases List.mem_append.mp h1 with h2 | h2
        · exact digit_not_ws (hda x (List.mem_cons_of_mem c h2))
        · rcases List.mem_cons.mp h2 with h3 | h3
          · subst h3; decide
          · exact digit_not_ws (hdb x h3))
  have hcm : ¬ c = '-' := digit_ne hc (by decide)
  have hcp : ¬ c = '+' := digit_ne hc (by decide)
  have hor : ¬ (c = '-' ∨ c = '+') := by rintro (h | h); exact hcm h; exact hcp h
  have htake := @takeWhile_append_stop isDigitChar '.' b
    (by decide) (c :: t) hda
  simp only [List.cons_append] at htake
  have htb := @takeWhile_all isDigitChar b hdb
  unfold parseFloatQ
  simp only [List.cons_append, hnw]
  simp only [List.head?_cons, Option.some.injEq, if_neg hcm, if_neg hor,
    htake.1, htake.2, List.tail_cons, if_pos rfl, htb.1, htb.2,
    List.head?_nil, reduceCtorEq, ite_false, List.cons_ne_nil, false_and,
    if_false, zpow_zero, mul_one, one_mul]
  simp [decVal]

/-!
## `parseNumber` reduction lemmas
-/

theorem nonws_of_allDigits {s : Str} (h : allDigits s) :
    ∀ c ∈ s, isJsWhitespace c = false :=
  fun c hc => digit_not_ws (h c hc)

theorem nonws_of_digitsOrDot {s : Str} (h : digitsOrDot s) :
    ∀ c ∈ s, isJsWhitespace c = false := by
  intro c hc
  rcases h c hc with hd | hdot
  · exact digit_not_ws hd
  · subst hdot; decide

theorem nonws_of_digitsOrComma {s : Str} (h : digitsOrComma s) :
    ∀ c ∈ s, isJsWhitespace c = false := by
  intro c hc
  rcases h c hc with hd | hcm
  · exact digit_not_ws hd
  · subst hcm; decide

theorem comma_not_mem_of_digitsOrDot {s : Str} (h : digitsOrDot s) : ',' ∉ s := by
  intro hmem
  rcases h ',' hmem with hd | hdot
  · exact Bool.noConfusion ((by decide : isDigitChar ',' = false) ▸ hd)
  · exact absurd hdot (by decide)

theorem dot_not_mem_of_digitsOrComma {s : Str} (h : digitsOrComma s) : '.' ∉ s := by
  intro hmem
  rcases h '.' hmem with hd | hcm
  · exact Bool.noConfusion ((by decide : isDigitChar '.' = false) ▸ hd)
  · exact absurd hcm (by decide)

theorem allDigits_append {a b : Str} (ha : allDigits a) (hb : allDigits b) :
    allDigits (a ++ b) := by
  intro c hc
  rcases List.mem_append.mp hc with h | h
  · exact ha c h
  · exact hb c h

theorem removeAllChar_cons_keep {x c : Char} (h : x ≠ c) (b : Str) :
    removeAllChar (x :: b) c = x :: removeAllChar b c := by
  simp [removeAllChar, h]

theorem removeAllChar_ne_nil_of_digit {a : Str} (sep : Char)
    (hsep : isDigitChar sep = false) (h : ∃ c ∈ a, isDigitChar c = true) :
    removeAllChar a sep ≠ [] := by
  rcases h with ⟨c, hc, hd⟩
  have : c ∈ removeAllChar a sep :=
    List.mem_filter.mpr ⟨hc, by simp [digit_ne hd hsep]⟩
  exact List.ne_nil_of_mem this

/-- `parseNumber` in `auto` mode on a whitespace-free string: the trim and
whitespace-strip are identities, leaving the separator analysis. -/
theorem parseNumber_auto_eq {s : Str} (hne : s ≠ [])
    (hnw : ∀ c ∈ s, isJsWhitespace c = false) :
    parseNumber s autoFmt =
      (match lastIndexOfChar s '.', lastIndexOfChar s ',' with
      | none, none => parseFloatQ s
      | some lastDot, none =>
        if s.length - (lastDot + 1) ≤ 2 then parseFloatQ s
        else parseFloatQ (removeAllChar s '.')
      | none, some lastComma =>
        if s.length - (lastComma + 1) ≤ 2 then parseFloatQ (replaceFirstChar s ',' '.')
        else parseFloatQ (removeAllChar s ',')
      | some lastDot, some lastComma =>
        if lastComma < lastDot then parseFloatQ (removeAllChar s ',')
        else parseFloatQ (replaceFirstChar (removeAllChar s '.') ',' '.')) := by
  unfold parseNumber
  rw [jsTrim_eq_self hnw, if_neg hne, wsFilter_eq_self hnw,
    if_neg (by decide : ¬ (autoFmt = usFmt)), if_neg (by decide : ¬ (autoFmt = euFmt))]

/-- `parseNumber` in `us` mode on a whitespace-free string. -/
theorem parseNumber_us_eq {s : Str} (hne : s ≠ [])
    (hnw : ∀ c ∈ s, isJsWhitespace c = false) :
    parseNumber s usFmt = parseFloatQ (removeAllChar s ',') := by
  unfold parseNumber
  rw [jsTrim_eq_self hnw, if_neg hne, wsFilter_eq_self hnw, if_pos rfl]

/-- `parseNumber` in `eu` mode on a whitespace-free string. -/
theorem parseNumber_eu_eq {s : Str} (hne : s ≠ [])
    (hnw : ∀ c ∈ s, isJsWhitespace c = false) :
    parseNumber s euFmt =
      parseFloatQ (replaceFirstChar (removeAllChar s '.') ',' '.') := by
  unfold parseNumber
  rw [jsTrim_eq_self hnw, if_neg hne, wsFilter_eq_self hnw,
    if_neg (by decide : ¬ (euFmt = usFmt)), if_pos rfl]

theorem parseNumber_auto_none_none {s : Str} (hne : s ≠ [])
    (hnw : ∀ c ∈ s, isJsWhitespace c = false)
    (hd : lastIndexOfChar s '.' = none) (hc : lastIndexOfChar s ',' = none) :
    parseNumber s autoFmt = parseFloatQ s := by
  rw [parseNumber_auto_eq hne hnw, hd, hc]

theorem parseNumber_auto_dot_none {s : Str} {n : Nat} (hne : s ≠ [])
    (hnw : ∀ c ∈ s, isJsWhitespace c = false)
    (hd : lastIndexOfChar s '.' = some n) (hc : lastIndexOfChar s ',' = none) :
    parseNumber s autoFmt =
      if s.length - (n + 1) ≤ 2 then parseFloatQ s
      else parseFloatQ (removeAllChar s '.') := by
  rw [parseNumber_auto_eq hne hnw, hd, hc]

theorem parseNumber_auto_none_comma {s : Str} {n : Nat} (hne : s ≠ [])
    (hnw : ∀ c ∈ s, isJsWhitespace c = false)
    (hd : lastIndexOfChar s '.' = none) (hc : lastIndexOfChar s ',' = some n) :
    parseNumber s autoFmt =
      if s.length - (n + 1) ≤ 2 then parseFloatQ (replaceFirstChar s ',' '.')
      else parseFloatQ (removeAllChar s ',') := by
  rw [parseNumber_auto_eq hne hnw, hd, hc]

theorem parseNumber_auto_dot_comma {s : Str} {nd nc : Nat} (hne : s ≠ [])
    (hnw : ∀ c ∈ s, isJsWhitespace c = false)
    (hd : lastIndexOfChar s '.' = some nd) (hc : lastIndexOfChar s ',' = some nc) :
    parseNumber s autoFmt =
      if nc < nd then parseFloatQ (removeAllChar s ',')
      else parseFloatQ (replaceFirstChar (removeAllChar s '.') ',' '.') := by
  rw [parseNumber_auto_eq hne hnw, hd, hc]

theorem digitsOrDot_parts {a b : Str} (hda : digitsOrDot a) (hdb : allDigits b) :
    digitsOrDot (a ++ '.' :: b) := by
  intro c hc
  rcases List.mem_append.mp hc with h | h
  · exact hda c h
  · rcases List.mem_cons.mp h with h2 | h2
    · exact Or.inr h2
    · exact Or.inl (hdb c h2)

theorem digitsOrComma_parts {a b : Str} (hda : digitsOrComma a) (hdb : allDigits b) :
    digitsOrComma (a ++ ',' :: b) := by
  intro c hc
  rcases List.mem_append.mp hc with h | h
  · exact hda c h
  · rcases List.mem_cons.mp h with h2 | h2
    · exact Or.inr h2
    · exact Or.inl (hdb c h2)

theorem digitsOrDot_of_allDigits {a : Str} (h : allDigits a) : digitsOrDot a :=
  fun c hc => Or.inl (h c hc)

theorem digitsOrComma_of_allDigits {a : Str} (h : allDigits a) : digitsOrComma a :=
  fun c hc => Or.inl (h c hc)

/-!
## C5 — `parseNumber` separator handling
-/

/-- C5 (amended): `parseNumber`'s separator handling, with the proviso the
counterexample forces: a separator is parsed as the decimal separator only
when it is the *sole* occurrence of its kind (JS `parseFloat` reads the
longest valid prefix and `replace(',', '.')` replaces only the first comma,
so further occurrences truncate the value instead).  Grouping cases hold
for any number of occurrences:
(a) no separators: plain integer in all three modes;
(b) auto, a single dot followed by ≤ 2 digits: dot is decimal;
(c) auto, dots only, final group > 2 digits: all dots stripped as grouping;
(d) auto, a single comma followed by ≤ 2 digits: comma is decimal;
(e) auto, commas only, final group > 2 digits: all commas stripped;
(f) auto, both kinds with the (single) dot after every comma: commas
    stripped, dot decimal;
(g) auto, both kinds with the (single) comma after every dot: dots
    stripped, comma decimal;
(h) us mode: commas stripped; a single dot is the decimal separator;
(i) eu mode: dots stripped; a single comma is the decimal separator. -/
theorem parseNumber_spec :
    (∀ s : Str, s ≠ [] → allDigits s →
        parseNumber s autoFmt = some ((digitsVal s : ℚ))
        ∧ parseNumber s usFmt = some ((digitsVal s : ℚ))
        ∧ parseNumber s euFmt = some ((digitsVal s : ℚ)))
    ∧ (∀ a b : Str, a ≠ [] → allDigits a → allDigits b → b.length ≤ 2 →
        parseNumber (a ++ '.' :: b) autoFmt = some (decVal a b))
    ∧ (∀ a b : Str, b ≠ [] → digitsOrDot a → allDigits b → 2 < b.length →
        parseNumber (a ++ '.' :: b) autoFmt
          = some ((digitsVal (removeAllChar (a ++ '.' :: b) '.') : ℚ)))
    ∧ (∀ a b : Str, a ≠ [] → allDigits a → allDigits b → b.length ≤ 2 →
        parseNumber (a ++ ',' :: b) autoFmt = some (decVal a b))
    ∧ (∀ a b : Str, b ≠ [] → digitsOrComma a → allDigits b → 2 < b.length →
        parseNumber (a ++ ',' :: b) autoFmt
          = some ((digitsVal (removeAllChar (a ++ ',' :: b) ',') : ℚ)))
    ∧ (∀ a b : Str, digitsOrComma a → ',' ∈ a → allDigits b →
        (∃ c ∈ a, isDigitChar c = true) →
        parseNumber (a ++ '.' :: b) autoFmt = some (decVal (removeAllChar a ',') b))
    ∧ (∀ a b : Str, digitsOrDot a → '.' ∈ a → allDigits b →
        (∃ c ∈ a, isDigitChar c = true) →
        parseNumber (a ++ ',' :: b) autoFmt = some (decVal (removeAllChar a '.') b))
    ∧ (∀ a b : Str, digitsOrComma a → allDigits b →
        (∃ c ∈ a, isDigitChar c = true) →
        parseNumber (a ++ '.' :: b) usFmt = some (decVal (removeAllChar a ',') b))
    ∧ (∀ s : Str, digitsOrComma s → (∃ c ∈ s, isDigitChar c = true) →
        parseNumber s usFmt = some ((digitsVal (removeAllChar s ',') : ℚ)))
    ∧ (∀ a b : Str, digitsOrDot a → allDigits b →
        (∃ c ∈ a, isDigitChar c = true) →
        parseNumber (a ++ ',' :: b) euFmt = some (decVal (removeAllChar a '.') b))
    ∧ (∀ s : Str, digitsOrDot s → (∃ c ∈ s, isDigitChar c = true) →
        parseNumber s euFmt = some ((digitsVal (removeAllChar s '.') : ℚ))) := by
  refine ⟨?_, ?_, ?_, ?_, ?_, ?_, ?_, ?_, ?_, ?_, ?_⟩
  · -- (a) no separators
    intro s hne hd
    have hnw := nonws_of_allDigits hd
    have hdm : '.' ∉ s := not_mem_of_allDigits hd (by decide)
    have hcm : ',' ∉ s := not_mem_of_allDigits hd (by decide)
    refine ⟨?_, ?_, ?_⟩
    · rw [parseNumber_auto_none_none hne hnw (lastIndexOfChar_of_not_mem hdm)
        (lastIndexOfChar_of_not_mem hcm)]
      exact parseFloatQ_digits hne hd
    · rw [parseNumber_us_eq hne hnw, removeAllChar_of_not_mem hcm]
      exact parseFloatQ_digits hne hd
    · rw [parseNumber_eu_eq hne hnw, removeAllChar_of_not_mem hdm,
        replaceFirstChar_of_not_mem ',' '.' hcm]
      exact parseFloatQ_digits hne hd
  · -- (b) single dot, short final group
    intro a b ha hda hdb hlen
    have hsod := digitsOrDot_parts (digitsOrDot_of_allDigits hda) hdb
    have hnw := nonws_of_digitsOrDot hsod
    have hne : a ++ '.' :: b ≠ [] := by simp
    have hld : lastIndexOfChar (a ++ '.' :: b) '.' = some a.length :=
      lastIndexOfChar_append_last (not_mem_of_allDigits hdb (by decide)) a
    have hlc : lastIndexOfChar (a ++ '.' :: b) ',' = none :=
      lastIndexOfChar_of_not_mem (comma_not_mem_of_digitsOrDot hsod)
    rw [parseNumber_auto_dot_none hne hnw hld hlc,
      if_pos (by simp only [List.length_append, List.length_cons]; omega)]
    exact parseFloatQ_dec ha hda hdb
  · -- (c) dots only, long final group
    intro a b hb hda hdb hlen
    have hsod := digitsOrDot_parts hda hdb
    have hnw := nonws_of_digitsOrDot hsod
    have hne : a ++ '.' :: b ≠ [] := by simp
    have hld : lastIndexOfChar (a ++ '.' :: b) '.' = some a.length :=
      lastIndexOfChar_append_last (not_mem_of_allDigits hdb (by decide)) a
    have hlc : lastIndexOfChar (a ++ '.' :: b) ',' = none :=
      lastIndexOfChar_of_not_mem (comma_not_mem_of_digitsOrDot hsod)
    rw [parseNumber_auto_dot_none hne hnw hld hlc,
      if_neg (by simp only [List.length_append, List.length_cons]; omega)]
    have hfil : removeAllChar (a ++ '.' :: b) '.' = removeAllChar a '.' ++ b := by
      rw [removeAllChar_append, removeAllChar_cons_self,
        removeAllChar_of_allDigits_dot hdb]
    rw [hfil]
    exact parseFloatQ_digits (fun h => hb (List.append_eq_nil.mp h).2)
      (allDigits_append (allDigits_removeAllChar_dot hda) hdb)
  · -- (d) single comma, short final group
    intro a b ha hda hdb hlen
    have hsoc := digitsOrComma_parts (digitsOrComma_of_allDigits hda) hdb
    have hnw := nonws_of_digitsOrComma hsoc
    have hne : a ++ ',' :: b ≠ [] := by simp
    have hlc : lastIndexOfChar (a ++ ',' :: b) ',' = some a.length :=
      lastIndexOfChar_append_last (not_mem_of_allDigits hdb (by decide)) a
    have hld : lastIndexOfChar (a ++ ',' :: b) '.' = none :=
      lastIndexOfChar_of_not_mem (dot_not_mem_of_digitsOrComma hsoc)
    rw [parseNumber_auto_none_comma hne hnw hld hlc,
      if_pos (by simp only [List.length_append, List.length_cons]; omega)]
    rw [replaceFirstChar_append ',' '.' (not_mem_of_allDigits hda (by decide)) b]
    exact parseFloatQ_dec ha hda hdb
  · -- (e) commas only, long final group
    intro a b hb hda hdb hlen
    have hsoc := digitsOrComma_parts hda hdb
    have hnw := nonws_of_digitsOrComma hsoc
    have hne : a ++ ',' :: b ≠ [] := by simp
    have hlc : lastIndexOfChar (a ++ ',' :: b) ',' = some a.length :=
      lastIndexOfChar_append_last (not_mem_of_allDigits hdb (by decide)) a
    have hld : lastIndexOfChar (a ++ ',' :: b) '.' = none :=
      lastIndexOfChar_of_not_mem (dot_not_mem_of_digitsOrComma hsoc)
    rw [parseNumber_auto_none_comma hne hnw hld hlc,
      if_neg (by simp only [List.length_append, List.length_cons]; omega)]
    have hfil : removeAllChar (a ++ ',' :: b) ',' = removeAllChar a ',' ++ b := by
      rw [removeAllChar_append, removeAllChar_cons_self,
        removeAllChar_of_allDigits_comma hdb]
    rw [hfil]
    exact parseFloatQ_digits (fun h => hb (List.append_eq_nil.mp h).2)
      (allDigits_append (allDigits_removeAllChar_comma hda) hdb)
  · -- (f) both kinds, dot last
    intro a b hda hmem hdb hex
    have hnw : ∀ c ∈ a ++ '.' :: b, isJsWhitespace c = false := by
      intro c hc
      rcases List.mem_append.mp hc with h | h
      · exact nonws_of_digitsOrComma hda c h
      · rcases List.mem_cons.mp h with h2 | h2
        · subst h2; decide
        · exact digit_not_ws (hdb c h2)
    have hne : a ++ '.' :: b ≠ [] := by simp
    have hld : lastIndexOfChar (a ++ '.' :: b) '.' = some a.length :=
      lastIndexOfChar_append_last (not_mem_of_allDigits hdb (by decide)) a
    have hcnotin : (',' : Char) ∉ ('.' :: b) := by
      intro hcm
      rcases List.mem_cons.mp hcm with h | h
      · exact absurd h (by decide)
      · exact not_mem_of_allDigits hdb (by decide) h
    rcases lastIndexOfChar_of_mem hmem with ⟨j, hj⟩
    have hlc : lastIndexOfChar (a ++ '.' :: b) ',' = some j := by
      rw [lastIndexOfChar_append_right hcnotin a, hj]
    have hjlt : j < a.length := lastIndexOfChar_lt_length hj
    rw [parseNumber_auto_dot_comma hne hnw hld hlc, if_pos hjlt]
    have hfil : removeAllChar (a ++ '.' :: b) ',' = removeAllChar a ',' ++ '.' :: b := by
      rw [removeAllChar_append, removeAllChar_cons_keep (by decide) b,
        removeAllChar_of_allDigits_comma hdb]
    rw [hfil]
    exact parseFloatQ_dec (removeAllChar_ne_nil_of_digit ',' (by decide) hex)
      (allDigits_removeAllChar_comma hda) hdb
  · -- (g) both kinds, comma last
    intro a b hda hmem hdb hex
    have hnw : ∀ c ∈ a ++ ',' :: b, isJsWhitespace c = false := by
      intro c hc
      rcases List.mem_append.mp hc with h | h
      · exact nonws_of_digitsOrDot hda c h
      · rcases List.mem_cons.mp h with h2 | h2
        · subst h2; decide
        · exact digit_not_ws (hdb c h2)
    have hne : a ++ ',' :: b ≠ [] := by simp
    have hlc : lastIndexOfChar (a ++ ',' :: b) ',' = some a.length :=
      lastIndexOfChar_append_last (not_mem_of_allDigits hdb (by decide)) a
    have hdnotin : ('.' : Char) ∉ (',' :: b) := by
      intro hdm
      rcases List.mem_cons.mp hdm with h | h
      · exact absurd h (by decide)
      · exact not_mem_of_allDigits hdb (by decide) h
    rcases lastIndexOfChar_of_mem hmem with ⟨j, hj⟩
    have hld : lastIndexOfChar (a ++ ',' :: b) '.' = some j := by
      rw [lastIndexOfChar_append_right hdnotin a, hj]
    have hjlt : j < a.length := lastIndexOfChar_lt_length hj
    rw [parseNumber_auto_dot_comma hne hnw hld hlc, if_neg (by omega)]
    have hfil : removeAllChar (a ++ ',' :: b) '.' = removeAllChar a '.' ++ ',' :: b := by
      rw [removeAllChar_append, removeAllChar_cons_keep (by decide) b,
        removeAllChar_of_allDigits_dot hdb]
    have hnm : (',' : Char) ∉ removeAllChar a '.' :=
      fun hm => comma_not_mem_of_digitsOrDot hda (List.mem_filter.mp hm).1
    rw [hfil, replaceFirstChar_append ',' '.' hnm b]
    exact parseFloatQ_dec (removeAllChar_ne_nil_of_digit '.' (by decide) hex)
      (allDigits_removeAllChar_dot hda) hdb
  · -- (h) us with a dot
    intro a b hda hdb hex
    have hnw : ∀ c ∈ a ++ '.' :: b, isJsWhitespace c = false := by
      intro c hc
      rcases List.mem_append.mp hc with h | h
      · exact nonws_of_digitsOrComma hda c h
      · rcases List.mem_cons.mp h with h2 | h2
        · subst h2; decide
        · exact digit_not_ws (hdb c h2)
    have hne : a ++ '.' :: b ≠ [] := by simp
    rw [parseNumber_us_eq hne hnw]
    have hfil : removeAllChar (a ++ '.' :: b) ',' = removeAllChar a ',' ++ '.' :: b := by
      rw [removeAllChar_append, removeAllChar_cons_keep (by decide) b,
        removeAllChar_of_allDigits_comma hdb]
    rw [hfil]
    exact parseFloatQ_dec (removeAllChar_ne_nil_of_digit ',' (by decide) hex)
      (allDigits_removeAllChar_comma hda) hdb
  · -- (h) us without a dot
    intro s hds hex
    have hne : s ≠ [] := by
      rcases hex with ⟨c, hc, -⟩
      exact List.ne_nil_of_mem hc
    rw [parseNumber_us_eq hne (nonws_of_digitsOrComma hds)]
    exact parseFloatQ_digits (removeAllChar_ne_nil_of_digit ',' (by decide) hex)
      (allDigits_removeAllChar_comma hds)
  · -- (i) eu with a comma
    intro a b hda hdb hex
    have hnw : ∀ c ∈ a ++ ',' :: b, isJsWhitespace c = false := by
      intro c hc
      rcases List.mem_append.mp hc with h | h
      · exact nonws_of_digitsOrDot hda c h
      · rcases List.mem_cons.mp h with h2 | h2
        · subst h2; decide
        · exact digit_not_ws (hdb c h2)
    have hne : a ++ ',' :: b ≠ [] := by simp
    rw [parseNumber_eu_eq hne hnw]
    have hfil : removeAllChar (a ++ ',' :: b) '.' = removeAllChar a '.' ++ ',' :: b := by
      rw [removeAllChar_append, removeAllChar_cons_keep (by decide) b,
        removeAllChar_of_allDigits_dot hdb]
    have hnm : (',' : Char) ∉ removeAllChar a '.' :=
      fun hm => comma_not_mem_of_digitsOrDot hda (List.mem_filter.mp hm).1
    rw [hfil, replaceFirstChar_append ',' '.' hnm b]
    exact parseFloatQ_dec (removeAllChar_ne_nil_of_digit '.' (by decide) hex)
      (allDigits_removeAllChar_dot hda) hdb
  · -- (i) eu without a comma
    intro s hds hex
    have hne : s ≠ [] := by
      rcases hex with ⟨c, hc, -⟩
      exact List.ne_nil_of_mem hc
    rw [parseNumber_eu_eq hne (nonws_of_digitsOrDot hds)]
    have hnm : (',' : Char) ∉ removeAllChar s '.' :=
      fun hm => comma_not_mem_of_digitsOrDot hds (List.mem_filter.mp hm).1
    rw [replaceFirstChar_of_not_mem ',' '.' hnm]
    exact parseFloatQ_digits (removeAllChar_ne_nil_of_digit '.' (by decide) hex)
      (allDigits_removeAllChar_dot hds)

/-- Counterexample to C5 as stated: in `auto` mode, `"1.000.50"` has one
separator kind whose rightmost occurrence is followed by 2 characters, yet
it parses to `1` (JS `parseFloat` stops at the second dot), not to the
`1000.50` the rightmost-decimal reading requires. -/
theorem parseNumber_multidot_truncates :
    parseNumber c5bad autoFmt = some 1 ∧ ((1 : ℚ) ≠ 1000 + 50 / 100) := by
  constructor
  · with_unfolding_all decide
  · norm_num

/-- Witness for C5 (amended) at concrete inputs: `"1000"`, `"1000.50"`,
`"1.000.000"`, and `"1,000.50"` in `auto` mode. -/
theorem parseNumber_spec_witness :
    parseNumber ("1000".data) autoFmt = some 1000
    ∧ parseNumber ("1000.50".data) autoFmt = some (decVal ("1000".data) ("50".data))
    ∧ parseNumber ("1.000.000".data) autoFmt = some 1000000
    ∧ parseNumber ("1,000.50".data) autoFmt
        = some (decVal (removeAllChar ("1,000".data) ',') ("50".data)) := by
  refine ⟨?_, ?_, ?_, ?_⟩
  · have h := (parseNumber_spec.1 ("1000".data) (by decide) (by decide)).1
    rw [h, show digitsVal ("1000".data) = 1000 from by decide]
    norm_num
  · exact parseNumber_spec.2.1 ("1000".data) ("50".data)
      (by decide) (by decide) (by decide) (by decide)
  · have h := parseNumber_spec.2.2.1 ("1.000".data) ("000".data)
      (by decide) (by decide) (by decide) (by decide)
    rw [show ("1.000".data ++ '.' :: "000".data) = "1.000.000".data from by decide] at h
    rw [h, show digitsVal (removeAllChar ("1.000.000".data) '.') = 1000000 from by decide]
    norm_num
  · have h := parseNumber_spec.2.2.2.2.2.1 ("1,000".data) ("50".data)
      (by decide) (by decide) (by decide) ⟨'1', by decide, by decide⟩
    rw [show ("1,000".data ++ '.' :: "50".data) = "1,000.50".data from by decide] at h
    exact h
/-!
## C6 — symbol matching
-/

theorem firstSome_append {f : α → Option β} {x : α} {b : β} :
    ∀ (l1 l2 : List α), (∀ y ∈ l1, f y = none) → f x = some b →
      firstSome (l1 ++ x :: l2) f = some b := by
  intro l1 l2 h hx
  induction l1 with
  | nil => simp [firstSome, hx]
  | cons y t ih =>
    simp only [List.cons_append, firstSome, h y (List.mem_cons_self y t)]
    exact ih (fun z hz => h z (List.mem_cons_of_mem y hz))

/-- Counterexample to C6 as stated: the symbol regexes carry no
word-boundary assertions, so `detectCurrency` accepts the `$` of
`"abc$5"` even though it is immediately preceded by the alphanumeric
character `c` — the detection's original `"$5"` sits at index 3, right
after `'c'`. -/
theorem detect_symbol_inside_token :
    detectCurrency c6text autoFmt = some c6det
    ∧ c6det.symbol = "$".data
    ∧ c6text.drop 3 = c6det.original
    ∧ c6text.get? 2 = some 'c'
    ∧ Char.isAlphanum 'c' = true := by
  refine ⟨by with_unfolding_all decide, by decide, by decide, by decide, by decide⟩

/-- C6 amended: symbols are matched longest-first — `sortedSymbols` is
length-descending, hence no symbol that is a proper prefix of another
precedes it, and each of the two symbol loops returns the detection of the
first symbol (in that order) that yields an accepted match.  However,
symbol occurrences are *not* word-bounded: a matched symbol may be
immediately preceded or followed by an alphanumeric character (see the
counterexample). -/
theorem symbols_longest_first :
    List.Pairwise (fun a b : Str => b.length ≤ a.length) sortedSymbols
    ∧ List.Pairwise (fun a b : Str => ¬ (a ≠ b ∧ a <+: b)) sortedSymbols
    ∧ (∀ tr fmt l1 sym l2 d, sortedSymbols = l1 ++ sym :: l2 →
        (∀ s2 ∈ l1, symOneBefore tr fmt s2 = none) →
        symOneBefore tr fmt sym = some d → symBeforeAttempt tr fmt = some d)
    ∧ (∀ tr fmt l1 sym l2 d, sortedSymbols = l1 ++ sym :: l2 →
        (∀ s2 ∈ l1, symOneAfter tr fmt s2 = none) →
        symOneAfter tr fmt sym = some d → symAfterAttempt tr fmt = some d) := by
  refine ⟨by with_unfolding_all decide, by with_unfolding_all decide, ?_, ?_⟩
  · intro tr fmt l1 sym l2 d heq h1 h2
    unfold symBeforeAttempt
    rw [heq]
    exact firstSome_append l1 l2 h1 h2
  · intro tr fmt l1 sym l2 d heq h1 h2
    unfold symAfterAttempt
    rw [heq]
    exact firstSome_append l1 l2 h1 h2

/-- Witness for C6 (amended): on `"R$10"`, the two-character symbol `R$`
(tried before its proper prefix `R`) wins, giving `BRL`. -/
theorem symbols_longest_first_witness :
    symBeforeAttempt ("R$10".data) autoFmt
      = some ⟨10, ["BRL".data], "R$10".data, "R$".data⟩ := by
  exact symbols_longest_first.2.2.1 ("R$10".data) autoFmt
    ["Mex$".data, "lei".data, "kr".data, "Fr".data, "zł".data, "Ft".data, "Kč".data]
    ("R$".data)
    ["RM".data, "Rp".data, "$".data, "€".data, "£".data, "¥".data, "₹".data,
      "₩".data, "₺".data, "R".data, "₱".data, "฿".data, "₪".data]
    ⟨10, ["BRL".data], "R$10".data, "R$".data⟩
    (by with_unfolding_all decide)
    (by with_unfolding_all decide)
    (by with_unfolding_all decide)

/-!
## C4 — strategy priority
-/

/-- Shared decomposition: away from the length guard, `detectCurrency` is
the orElse-chain of the three strategies. -/
theorem detect_eq_chain (t fmt : Str) (hb : ¬ (t = [] ∨ 200 < t.length)) :
    detectCurrency t fmt
      = Option.orElse (kwStrategy (jsTrim t) fmt)
          (fun _ => Option.orElse (isoStrategy (jsTrim t) fmt)
            (fun _ => symStrategy (jsTrim t) fmt)) := by
  unfold detectCurrency kwStrategy isoStrategy symStrategy
  rw [if_neg hb]
  by_cases hkw : sortedKeywords = [] <;>
    cases h1 : kwAfterAttempt (jsTrim t) fmt <;>
    cases h2 : kwBeforeAttempt (jsTrim t) fmt <;>
    cases h3 : isoBeforeAttempt (jsTrim t) fmt <;>
    cases h4 : isoAfterAttempt (jsTrim t) fmt <;>
    simp_all [Option.orElse]

/-- C4: `detectCurrency` is the priority chain keyword strategy, then ISO
strategy, then symbol strategy (each strategy trying its two orderings in
sequence), and the first strategy that yields an accepted candidate
determines the result — in particular a keyword acceptance wins even when
an ISO code or symbol also matches. -/
theorem detectCurrency_priority (t fmt : Str) :
    (kwStrategy (jsTrim t) fmt
      = if sortedKeywords = [] then none
        else Option.orElse (kwAfterAttempt (jsTrim t) fmt)
          (fun _ => kwBeforeAttempt (jsTrim t) fmt))
    ∧ (isoStrategy (jsTrim t) fmt
      = Option.orElse (isoBeforeAttempt (jsTrim t) fmt)
          (fun _ => isoAfterAttempt (jsTrim t) fmt))
    ∧ (symStrategy (jsTrim t) fmt
      = Option.orElse (symBeforeAttempt (jsTrim t) fmt)
          (fun _ => symAfterAttempt (jsTrim t) fmt))
    ∧ (¬ (t = [] ∨ 200 < t.length) →
        detectCurrency t fmt
          = Option.orElse (kwStrategy (jsTrim t) fmt)
              (fun _ => Option.orElse (isoStrategy (jsTrim t) fmt)
                (fun _ => symStrategy (jsTrim t) fmt)))
    ∧ (∀ d, ¬ (t = [] ∨ 200 < t.length) →
        kwStrategy (jsTrim t) fmt = some d → detectCurrency t fmt = some d)
    ∧ (∀ d, ¬ (t = [] ∨ 200 < t.length) →
        kwStrategy (jsTrim t) fmt = none → isoStrategy (jsTrim t) fmt = some d →
        detectCurrency t fmt = some d)
    ∧ (¬ (t = [] ∨ 200 < t.length) →
        kwStrategy (jsTrim t) fmt = none → isoStrategy (jsTrim t) fmt = none →
        detectCurrency t fmt = symStrategy (jsTrim t) fmt) := by
  have hk : kwStrategy (jsTrim t) fmt
      = if sortedKeywords = [] then none
        else Option.orElse (kwAfterAttempt (jsTrim t) fmt)
          (fun _ => kwBeforeAttempt (jsTrim t) fmt) := by
    unfold kwStrategy
    by_cases hkw : sortedKeywords = []
    · simp [hkw]
    · cases h1 : kwAfterAttempt (jsTrim t) fmt <;> simp [hkw, h1, Option.orElse]
  have hi : isoStrategy (jsTrim t) fmt
      = Option.orElse (isoBeforeAttempt (jsTrim t) fmt)
          (fun _ => isoAfterAttempt (jsTrim t) fmt) := by
    unfold isoStrategy
    cases h1 : isoBeforeAttempt (jsTrim t) fmt <;> simp [h1, Option.orElse]
  have hs : symStrategy (jsTrim t) fmt
      = Option.orElse (symBeforeAttempt (jsTrim t) fmt)
          (fun _ => symAfterAttempt (jsTrim t) fmt) := by
    unfold symStrategy
    cases h1 : symBeforeAttempt (jsTrim t) fmt <;> simp [h1, Option.orElse]
  have hmain := detect_eq_chain t fmt
  refine ⟨hk, hi, hs, hmain, ?_, ?_, ?_⟩
  · intro d hb hkd
    rw [hmain hb, hkd]
    rfl
  · intro d hb hkn hid
    rw [hmain hb, hkn, hid]
    rfl
  · intro hb hkn hin
    rw [hmain hb, hkn, hin]
    rfl

/-- Witness for C4: on `"5 dollars and €3"` the keyword strategy accepts
`"5 dollars"` and a symbol (`€3`) also matches; the detection returned is
the keyword one. -/
theorem detectCurrency_priority_witness :
    detectCurrency c4text autoFmt = some c4det
    ∧ symStrategy (jsTrim c4text) autoFmt ≠ none := by
  constructor
  · exact (detectCurrency_priority c4text autoFmt).2.2.2.2.1 c4det (by decide)
      (by with_unfolding_all decide)
  · with_unfolding_all decide

/-!
## C8 — detection invariants
-/

theorem assocLookup_mem [DecidableEq α] {k : α} {v : β} :
    ∀ {l : List (α × β)}, assocLookup l k = some v → (k, v) ∈ l := by
  intro l
  induction l with
  | nil => intro h; exact Option.noConfusion h
  | cons p t ih =>
    intro h
    obtain ⟨a, b⟩ := p
    by_cases ha : a = k
    · subst ha
      rw [assocLookup, if_pos rfl] at h
      cases h
      exact List.mem_cons_self _ _
    · rw [assocLookup, if_neg ha] at h
      exact List.mem_cons_of_mem _ (ih h)

theorem CURRENCY_SYMBOLS_values_ne_nil :
    ∀ p ∈ CURRENCY_SYMBOLS, p.2 ≠ [] := by
  with_unfolding_all decide

theorem identifyCurrencies_iso_ne_nil {code : Str}
    (h : ECB_CURRENCIES.contains code = true) : identifyCurrencies code ≠ [] := by
  unfold identifyCurrencies
  cases hs : assocLookup CURRENCY_SYMBOLS code with
  | some v => exact CURRENCY_SYMBOLS_values_ne_nil _ (assocLookup_mem hs)
  | none =>
    rw [if_pos h]
    exact List.cons_ne_nil _ _

/-- The acceptance invariants of one detection attempt. -/
def DetOk (d : Detection) : Prop :=
  d.currencies ≠ [] ∧ 0 < d.amount ∧ identifyCurrencies d.symbol ≠ []

theorem kwAfterAttempt_sound {tr fmt : Str} {d : Detection}
    (h : kwAfterAttempt tr fmt = some d) : DetOk d := by
  unfold kwAfterAttempt at h
  cases hs : searchG12 kwAfterRe tr with
  | none => simp only [hs] at h; exact Option.noConfusion h
  | some trip =>
    obtain ⟨whole, numStr, kwStr⟩ := trip
    simp only [hs] at h
    cases hp : parseNumber numStr fmt with
    | none => simp only [hp] at h; exact Option.noConfusion h
    | some amount =>
      simp only [hp] at h
      by_cases ha : 0 < amount
      · rw [if_pos ha] at h
        by_cases hc : identifyCurrencies kwStr = []
        · rw [if_pos hc] at h; exact Option.noConfusion h
        · rw [if_neg hc] at h
          cases h
          exact ⟨hc, ha, hc⟩
      · rw [if_neg ha] at h; exact Option.noConfusion h

theorem kwBeforeAttempt_sound {tr fmt : Str} {d : Detection}
    (h : kwBeforeAttempt tr fmt = some d) : DetOk d := by
  unfold kwBeforeAttempt at h
  cases hs : searchG12 kwBeforeRe tr with
  | none => simp only [hs] at h; exact Option.noConfusion h
  | some trip =>
    obtain ⟨whole, kwStr, numStr⟩ := trip
    simp only [hs] at h
    cases hp : parseNumber numStr fmt with
    | none => simp only [hp] at h; exact Option.noConfusion h
    | some amount =>
      simp only [hp] at h
      by_cases ha : 0 < amount
      · rw [if_pos ha] at h
        by_cases hc : identifyCurrencies kwStr = []
        · rw [if_pos hc] at h; exact Option.noConfusion h
        · rw [if_neg hc] at h
          cases h
          exact ⟨hc, ha, hc⟩
      · rw [if_neg ha] at h; exact Option.noConfusion h

theorem isoBeforeAttempt_sound {tr fmt : Str} {d : Detection}
    (h : isoBeforeAttempt tr fmt = some d) : DetOk d := by
  unfold isoBeforeAttempt at h
  cases hs : searchG12 isoBeforeRe tr with
  | none => simp only [hs] at h; exact Option.noConfusion h
  | some trip =>
    obtain ⟨whole, code, numStr⟩ := trip
    simp only [hs] at h
    by_cases hiso : ECB_CURRENCIES.contains code = true
    · rw [if_pos hiso] at h
      cases hp : parseNumber numStr fmt with
      | none => simp only [hp] at h; exact Option.noConfusion h
      | some amount =>
        simp only [hp] at h
        by_cases ha : 0 < amount
        · rw [if_pos ha] at h
          cases h
          exact ⟨List.cons_ne_nil _ _, ha, identifyCurrencies_iso_ne_nil hiso⟩
        · rw [if_neg ha] at h; exact Option.noConfusion h
    · rw [if_neg hiso] at h; exact Option.noConfusion h

theorem isoAfterAttempt_sound {tr fmt : Str} {d : Detection}
    (h : isoAfterAttempt tr fmt = some d) : DetOk d := by
  unfold isoAfterAttempt at h
  cases hs : searchG12 isoAfterRe tr with
  | none => simp only [hs] at h; exact Option.noConfusion h
  | some trip =>
    obtain ⟨whole, numStr, code⟩ := trip
    simp only [hs] at h
    by_cases hiso : ECB_CURRENCIES.contains code = true
    · rw [if_pos hiso] at h
      cases hp : parseNumber numStr fmt with
      | none => simp only [hp] at h; exact Option.noConfusion h
      | some amount =>
        simp only [hp] at h
        by_cases ha : 0 < amount
        · rw [if_pos ha] at h
          cases h
          exact ⟨List.cons_ne_nil _ _, ha, identifyCurrencies_iso_ne_nil hiso⟩
        · rw [if_neg ha] at h; exact Option.noConfusion h
    · rw [if_neg hiso] at h; exact Option.noConfusion h

theorem symOneBefore_sound {tr fmt sym : Str} {d : Detection}
    (h : symOneBefore tr fmt sym = some d) : DetOk d := by
  unfold symOneBefore at h
  cases hs : searchG12 (symBeforeRe sym) tr with
  | none => simp only [hs] at h; exact Option.noConfusion h
  | some trip =>
    obtain ⟨whole, symStr, numStr⟩ := trip
    simp only [hs] at h
    cases hp : parseNumber numStr fmt with
    | none => simp only [hp] at h; exact Option.noConfusion h
    | some amount =>
      simp only [hp] at h
      by_cases ha : 0 < amount
      · rw [if_pos ha] at h
        by_cases hc : identifyCurrencies symStr = []
        · rw [if_pos hc] at h; exact Option.noConfusion h
        · rw [if_neg hc] at h
          cases h
          exact ⟨hc, ha, hc⟩
      · rw [if_neg ha] at h; exact Option.noConfusion h

theorem symOneAfter_sound {tr fmt sym : Str} {d : Detection}
    (h : symOneAfter tr fmt sym = some d) : DetOk d := by
  unfold symOneAfter at h
  cases hs : searchG12 (symAfterRe sym) tr with
  | none => simp only [hs] at h; exact Option.noConfusion h
  | some trip =>
    obtain ⟨whole, numStr, symStr⟩ := trip
    simp only [hs] at h
    cases hp : parseNumber numStr fmt with
    | none => simp only [hp] at h; exact Option.noConfusion h
    | some amount =>
      simp only [hp] at h
      by_cases ha : 0 < amount
      · rw [if_pos ha] at h
        by_cases hc : identifyCurrencies symStr = []
        · rw [if_pos hc] at h; exact Option.noConfusion h
        · rw [if_neg hc] at h
          cases h
          exact ⟨hc, ha, hc⟩
      · rw [if_neg ha] at h; exact Option.noConfusion h

theorem firstSome_mem {f : α → Option β} {b : β} :
    ∀ {l : List α}, firstSome l f = some b → ∃ x ∈ l, f x = some b := by
  intro l
  induction l with
  | nil => intro h; exact Option.noConfusion h
  | cons y t ih =>
    intro h
    unfold firstSome at h
    cases hy : f y with
    | some v =>
      rw [hy] at h
      cases h
      exact ⟨y, List.mem_cons_self y t, hy⟩
    | none =>
      rw [hy] at h
      rcases ih h with ⟨x, hx, hfx⟩
      exact ⟨x, List.mem_cons_of_mem y hx, hfx⟩

theorem kwStrategy_sound {tr fmt : Str} {d : Detection}
    (h : kwStrategy tr fmt = some d) : DetOk d := by
  unfold kwStrategy at h
  by_cases hkw : sortedKeywords = []
  · rw [if_pos hkw] at h; exact Option.noConfusion h
  · rw [if_neg hkw] at h
    cases h1 : kwAfterAttempt tr fmt with
    | some v =>
      rw [h1] at h
      cases h
      exact kwAfterAttempt_sound h1
    | none =>
      rw [h1] at h
      exact kwBeforeAttempt_sound h

theorem isoStrategy_sound {tr fmt : Str} {d : Detection}
    (h : isoStrategy tr fmt = some d) : DetOk d := by
  unfold isoStrategy at h
  cases h1 : isoBeforeAttempt tr fmt with
  | some v =>
    rw [h1] at h
    cases h
    exact isoBeforeAttempt_sound h1
  | none =>
    rw [h1] at h
    exact isoAfterAttempt_sound h

theorem symStrategy_sound {tr fmt : Str} {d : Detection}
    (h : symStrategy tr fmt = some d) : DetOk d := by
  unfold symStrategy at h
  have hb : ∀ {x : Option Detection}, symBeforeAttempt tr fmt = x → x = some d →
      DetOk d := by
    intro x hx heq
    subst heq
    rcases firstSome_mem hx with ⟨sym, -, hsym⟩
    exact symOneBefore_sound hsym
  cases h1 : symBeforeAttempt tr fmt with
  | some v =>
    rw [h1] at h
    cases h
    exact hb h1 rfl
  | none =>
    rw [h1] at h
    rcases firstSome_mem h with ⟨sym, -, hsym⟩
    exact symOneAfter_sound hsym

/-- C8: every detection returned by `detectCurrency` has a non-empty
currency-candidate list, a (finite, being rational) amount that is
strictly positive — hence ≥ 0 — and an indicator (`symbol`) that
`identifyCurrencies` resolves to at least one supported code; in
particular no Detection with an empty currency list is ever returned. -/
theorem detectCurrency_accepts (t fmt : Str) (d : Detection)
    (h : detectCurrency t fmt = some d) :
    d.currencies ≠ [] ∧ 0 ≤ d.amount ∧ 0 < d.amount
    ∧ identifyCurrencies d.symbol ≠ [] := by
  have hok : DetOk d := by
    by_cases hb : (t = [] ∨ 200 < t.length)
    · rw [detectCurrency, if_pos hb] at h
      exact Option.noConfusion h
    · rw [detect_eq_chain t fmt hb] at h
      cases h1 : kwStrategy (jsTrim t) fmt with
      | some v =>
        rw [h1] at h
        cases h
        exact kwStrategy_sound h1
      | none =>
        rw [h1] at h
        simp only [Option.orElse] at h
        cases h2 : isoStrategy (jsTrim t) fmt with
        | some v =>
          rw [h2] at h
          cases h
          exact isoStrategy_sound h2
        | none =>
          rw [h2] at h
          exact symStrategy_sound h
  exact ⟨hok.1, le_of_lt hok.2.1, hok.2.1, hok.2.2⟩

/-- Witness for C8 at `"$5"`. -/
theorem detectCurrency_accepts_witness :
    c8det.currencies ≠ [] ∧ 0 ≤ c8det.amount ∧ 0 < c8det.amount
    ∧ identifyCurrencies c8det.symbol ≠ [] :=
  detectCurrency_accepts c8text autoFmt c8det (by with_unfolding_all decide)

/-!
## C7 — cross-rate conversion and missing-rate safety

The well-formedness hypotheses on the rate table are exactly what
`fetchRates` guarantees (rates.js lines 31 and 80: every stored rate is a
positive number and `EUR` is stored as `1`) and what §3 of the spec demands
of a `RateTable` (positive reals per unit of the pivot).
-/

/-- C7: with a well-formed rate table, the scanner's conversion is the
cross-rate `amount / rate[from] * rate[to]`; a missing source or target
rate (or a missing table) yields `none`; and a `none` conversion makes
`processTextNode` leave the scanner state — document, count, everything —
unchanged (the candidate is skipped silently). -/
theorem convertCurrencyLocal_crossrate :
    (∀ (rates : RateTable) (amount : ℚ) (fromC toC : Str),
        (∀ p ∈ rates, 0 < p.2) → assocLookup rates EUR = some 1 → fromC ≠ toC →
        (∀ rf rt, assocLookup rates fromC = some rf → assocLookup rates toC = some rt →
          convertCurrencyLocal (some rates) amount fromC toC = some (amount / rf * rt))
        ∧ (assocLookup rates fromC = none ∨ assocLookup rates toC = none →
          convertCurrencyLocal (some rates) amount fromC toC = none))
    ∧ (∀ (amount : ℚ) (fromC toC : Str),
        convertCurrencyLocal none amount fromC toC = none)
    ∧ (∀ st id text detection,
        findRegion st id = some ⟨true, Slot.textNode text⟩ →
        detectCurrency text st.settings.numberFormat = some detection →
        convertCurrencyLocal st.rates detection.amount
          (resolveFromCurrency detection st.settings) st.settings.targetCurrency = none →
        processTextNode st id = st) := by
  refine ⟨?_, ?_, ?_⟩
  · intro rates amount fromC toC hpos heur hneq
    constructor
    · intro rf rt hrf hrt
      by_cases hfe : fromC = EUR
      · subst hfe
        rw [heur] at hrf
        injection hrf with hrf1
        subst hrf1
        have hte : ¬ toC = EUR := fun h => hneq h.symm
        have hrtpos : 0 < rt := hpos _ (assocLookup_mem hrt)
        simp [convertCurrencyLocal, ratesTruthy, hneq, hte, hrt,
          ne_of_gt hrtpos, div_one]
      · by_cases hte : toC = EUR
        · subst hte
          rw [heur] at hrt
          injection hrt with hrt1
          subst hrt1
          have hrfpos : 0 < rf := hpos _ (assocLookup_mem hrf)
          simp [convertCurrencyLocal, ratesTruthy, hneq, hfe, hrf,
            ne_of_gt hrfpos, mul_one]
        · have hrfpos : 0 < rf := hpos _ (assocLookup_mem hrf)
          have hrtpos : 0 < rt := hpos _ (assocLookup_mem hrt)
          simp [convertCurrencyLocal, ratesTruthy, hneq, hfe, hte, hrf, hrt,
            ne_of_gt hrfpos, ne_of_gt hrtpos]
    · intro hmiss
      rcases hmiss with hm | hm
      · have hfe : ¬ fromC = EUR := fun h => by
          rw [h, heur] at hm
          exact Option.noConfusion hm
        simp [convertCurrencyLocal, ratesTruthy, hneq, hfe, hm]
      · have hte : ¬ toC = EUR := fun h => by
          rw [h, heur] at hm
          exact Option.noConfusion hm
        by_cases hfe : fromC = EUR
        · subst hfe
          simp [convertCurrencyLocal, ratesTruthy, hneq, hte, hm]
        · cases hf : assocLookup rates fromC with
          | none => simp [convertCurrencyLocal, ratesTruthy, hneq, hfe, hf]
          | some rf =>
            by_cases hrf0 : rf = 0
            · simp [convertCurrencyLocal, ratesTruthy, hneq, hfe, hf, hrf0]
            · simp [convertCurrencyLocal, ratesTruthy, hneq, hfe, hte, hf, hrf0, hm]
  · intro amount fromC toC
    rfl
  · intro st id text detection hfind hdet hconv
    unfold processTextNode
    simp only [hfind]
    by_cases hlen : text = [] ∨ MAX_SELECTION_LENGTH * 2 < text.length
    · rw [if_pos hlen]
    · simp only [if_neg hlen, hdet]
      by_cases htgt : resolveFromCurrency detection st.settings = st.settings.targetCurrency
      · simp [htgt]
      · simp [htgt, hconv]

/-- Witness for C7 on the `fetchRates`-shaped table `exRates`
(`EUR = 1`, `USD = 2`): `10 USD → EUR` converts to `10 / 2 * 1`, a missing
`CAD` rate converts to `none`, a `null` table converts to `none`, and the
scanner skips the `"9 CAD"` text node without any state change. -/
theorem convertCurrencyLocal_crossrate_witness :
    convertCurrencyLocal (some exRates) 10 ("USD".data) EUR = some (10 / 2 * 1)
    ∧ convertCurrencyLocal (some exRates) 9 ("CAD".data) EUR = none
    ∧ convertCurrencyLocal none 9 ("CAD".data) EUR = none
    ∧ processTextNode exMissState 3 = exMissState := by
  have hpos : ∀ p ∈ exRates, 0 < p.2 := by with_unfolding_all decide
  have heur : assocLookup exRates EUR = some 1 := by with_unfolding_all decide
  refine ⟨?_, ?_, ?_, ?_⟩
  · exact (convertCurrencyLocal_crossrate.1 exRates 10 ("USD".data) EUR hpos heur
      (by decide)).1 2 1 (by with_unfolding_all decide) (by with_unfolding_all decide)
  · exact (convertCurrencyLocal_crossrate.1 exRates 9 ("CAD".data) EUR hpos heur
      (by decide)).2 (Or.inl (by with_unfolding_all decide))
  · exact convertCurrencyLocal_crossrate.2.1 9 ("CAD".data) EUR
  · exact convertCurrencyLocal_crossrate.2.2 exMissState 3 ("9 CAD".data) cadDet
      (by with_unfolding_all decide) (by with_unfolding_all decide)
      (by with_unfolding_all decide)

/-!
## C2 — concurrently removed regions
-/

/-- Counterexample to C2 as stated: a composite region is scheduled for
replacement (`scan`), removed from the document, and then its fade-out
completes.  No content mutation is performed on the region — its text is
still the original — and no error is raised, but `replacementCount` stands
at 1: the increment happened at scheduling time and is not rolled back,
whereas the claim requires the count not to be incremented for this
region. -/
theorem removed_region_count_still_incremented :
    (run exCompState [Event.scan, Event.remove 0, Event.complete 0]).replacementCount = 1
    ∧ regionText (run exCompState [Event.scan, Event.remove 0, Event.complete 0]) 0
        = some (" $5 ".data) := by
  refine ⟨by with_unfolding_all decide, by with_unfolding_all decide⟩

/-- C2 amended: if the region is removed from the document between the
start of the replacement and the completion of the visual fade-out, firing
the transition performs no content mutation on any region and raises no
error (the model's `completeAnim` is total and leaves the document
untouched); `replacementCount`, however, was already incremented when the
replacement was scheduled, and firing the guarded transition neither
increments nor rolls it back. -/
theorem completeAnim_dead_region (st : ScanState) (k : Nat) (p : Pending)
    (hp : st.pending.get? k = some p)
    (hd : regionDetached st (pendingId p) = true) :
    (completeAnim st k).replacementCount = st.replacementCount
    ∧ (completeAnim st k).doc = st.doc := by
  unfold completeAnim
  simp only [hp]
  cases p with
  | textSwap id fullOriginal fromC conv =>
    simp only [pendingId] at hd
    unfold regionDetached at hd
    cases hfind : findRegion st id with
    | none =>
      unfold findRegion at hfind ⊢
      simp [hfind]
    | some r =>
      rw [hfind] at hd
      obtain ⟨alive, slot⟩ := r
      have halive : alive = false := by simpa using hd
      subst halive
      unfold findRegion at hfind ⊢
      cases slot <;> simp [hfind]
  | compSwap id fullOriginal originalHtml fromC conv =>
    simp only [pendingId] at hd
    unfold regionDetached at hd
    cases hfind : findRegion st id with
    | none =>
      unfold findRegion at hfind ⊢
      simp [hfind]
    | some r =>
      rw [hfind] at hd
      obtain ⟨alive, slot⟩ := r
      have halive : alive = false := by simpa using hd
      subst halive
      unfold findRegion at hfind ⊢
      cases slot <;> simp [hfind]

/-- Witness for C2 (amended): after scheduling and removal, firing the
pending composite swap changes neither the count nor the document. -/
theorem completeAnim_dead_region_witness :
    (completeAnim (run exCompState [Event.scan, Event.remove 0]) 0).replacementCount
      = (run exCompState [Event.scan, Event.remove 0]).replacementCount
    ∧ (completeAnim (run exCompState [Event.scan, Event.remove 0]) 0).doc
      = (run exCompState [Event.scan, Event.remove 0]).doc := by
  exact completeAnim_dead_region (run exCompState [Event.scan, Event.remove 0]) 0
    (Pending.compSwap 0 ("$5".data) (" $5 ".data) ("USD".data) (5 / 2))
    (by with_unfolding_all decide) (by with_unfolding_all decide)

/-!
## C1 — replacement budget
-/

theorem replaceInTextNode_count (st : ScanState) (id : Nat) (text : Str)
    (d : Detection) (fromC : Str) (conv : ℚ) :
    (replaceInTextNode st id text d fromC conv).replacementCount
      = st.replacementCount := by
  unfold replaceInTextNode
  split <;> rfl

theorem replaceInTextNode_settings (st : ScanState) (id : Nat) (text : Str)
    (d : Detection) (fromC : Str) (conv : ℚ) :
    (replaceInTextNode st id text d fromC conv).settings = st.settings := by
  unfold replaceInTextNode
  split <;> rfl

theorem processTextNode_le (st : ScanState) (id : Nat) :
    (processTextNode st id).replacementCount ≤ st.replacementCount + 1
    ∧ (processTextNode st id).settings = st.settings := by
  unfold processTextNode
  dsimp only
  split
  · split
    · exact ⟨Nat.le_succ _, rfl⟩
    · split
      · exact ⟨Nat.le_succ _, rfl⟩
      · split
        · exact ⟨Nat.le_succ _, rfl⟩
        · split
          · exact ⟨Nat.le_succ _, rfl⟩
          · simp [replaceInTextNode_count, replaceInTextNode_settings]
  · exact ⟨Nat.le_succ _, rfl⟩

theorem processCompositeElement_le (st : ScanState) (id : Nat) :
    (processCompositeElement st id).replacementCount ≤ st.replacementCount + 1
    ∧ (processCompositeElement st id).settings = st.settings := by
  unfold processCompositeElement
  dsimp only
  split
  · split
    · exact ⟨Nat.le_succ _, rfl⟩
    · split
      · exact ⟨Nat.le_succ _, rfl⟩
      · split
        · exact ⟨Nat.le_succ _, rfl⟩
        · split
          · exact ⟨Nat.le_succ _, rfl⟩
          · split
            · exact ⟨Nat.le_succ _, rfl⟩
            · simp [replaceCompositeElement, pushPending, setSlot]
  · exact ⟨Nat.le_succ _, rfl⟩

theorem completeAnim_fields (st : ScanState) (k : Nat) :
    (completeAnim st k).replacementCount = st.replacementCount
    ∧ (completeAnim st k).settings = st.settings := by
  unfold completeAnim
  dsimp only
  split
  · exact ⟨rfl, rfl⟩
  · split <;> split <;> simp [setSlot]

theorem restoreElement_le (st : ScanState) (id : Nat) :
    (restoreElement st id).replacementCount ≤ st.replacementCount
    ∧ (restoreElement st id).settings = st.settings := by
  unfold restoreElement
  split
  · split
    · split
      · exact ⟨Nat.sub_le _ _, rfl⟩
      · exact ⟨Nat.le_refl _, rfl⟩
    · split
      · split
        · exact ⟨Nat.sub_le _ _, rfl⟩
        · exact ⟨Nat.le_refl _, rfl⟩
      · exact ⟨Nat.le_refl _, rfl⟩
    · exact ⟨Nat.le_refl _, rfl⟩
  · exact ⟨Nat.le_refl _, rfl⟩

theorem foldl_restore_settings :
    ∀ (ids : List Nat) (st : ScanState),
      (ids.foldl restoreElement st).settings = st.settings := by
  intro ids
  induction ids with
  | nil => intro st; rfl
  | cons id rest ih =>
    intro st
    simp only [List.foldl_cons]
    rw [ih (restoreElement st id), (restoreElement_le st id).2]

theorem restoreAll_fields (st : ScanState) :
    (restoreAll st).replacementCount = 0
    ∧ (restoreAll st).settings = st.settings := by
  unfold restoreAll
  exact ⟨rfl, foldl_restore_settings _ st⟩

/-- Invariant of a budget-guarded fold: if each unguarded step adds at most
one replacement and preserves the settings, the fold keeps the count at or
under the limit and preserves the settings. -/
theorem guardedFold_invariant (f : ScanState → Nat → ScanState)
    (hf : ∀ s id, (f s id).replacementCount ≤ s.replacementCount + 1
        ∧ (f s id).settings = s.settings) :
    ∀ (ids : List Nat) (st : ScanState),
      st.replacementCount ≤ st.settings.autoReplaceLimit →
      ((ids.foldl (fun s id =>
          if s.settings.autoReplaceLimit ≤ s.replacementCount then s
          else f s id) st).replacementCount ≤ st.settings.autoReplaceLimit
       ∧ (ids.foldl (fun s id =>
          if s.settings.autoReplaceLimit ≤ s.replacementCount then s
          else f s id) st).settings = st.settings) := by
  intro ids
  induction ids with
  | nil => intro st h; exact ⟨h, rfl⟩
  | cons id rest ih =>
    intro st h
    simp only [List.foldl_cons]
    by_cases hguard : st.settings.autoReplaceLimit ≤ st.replacementCount
    · rw [if_pos hguard]
      exact ih st h
    · rw [if_neg hguard]
      have h1 := hf st id
      have hcount : (f st id).replacementCount ≤ (f st id).settings.autoReplaceLimit := by
        rw [h1.2]
        omega
      have h2 := ih (f st id) hcount
      rw [h1.2] at h2
      exact h2

/-- A budget-guarded fold is the identity once the budget is exhausted. -/
theorem guardedFold_stuck (f : ScanState → Nat → ScanState) :
    ∀ (ids : List Nat) (st : ScanState),
      st.settings.autoReplaceLimit ≤ st.replacementCount →
      ids.foldl (fun s id =>
        if s.settings.autoReplaceLimit ≤ s.replacementCount then s
        else f s id) st = st := by
  intro ids
  induction ids with
  | nil => intro st _; rfl
  | cons id rest ih =>
    intro st h
    simp only [List.foldl_cons, if_pos h]
    exact ih st h

theorem compositePass_body_le (s : ScanState) (id : Nat) :
    ((match findRegion s id with
      | some ⟨true, Slot.composite el⟩ =>
        if el.replacedMark then s else processCompositeElement s id
      | _ => s) : ScanState).replacementCount ≤ s.replacementCount + 1
    ∧ ((match findRegion s id with
      | some ⟨true, Slot.composite el⟩ =>
        if el.replacedMark then s else processCompositeElement s id
      | _ => s) : ScanState).settings = s.settings := by
  split
  · split
    · exact ⟨Nat.le_succ _, rfl⟩
    · exact processCompositeElement_le s id
  · exact ⟨Nat.le_succ _, rfl⟩

theorem compositePass_invariant (st : ScanState) (ids : List Nat)
    (h : st.replacementCount ≤ st.settings.autoReplaceLimit) :
    (compositePass st ids).replacementCount ≤ st.settings.autoReplaceLimit
    ∧ (compositePass st ids).settings = st.settings :=
  guardedFold_invariant _ compositePass_body_le ids st h

theorem textPass_invariant (st : ScanState) (ids : List Nat)
    (h : st.replacementCount ≤ st.settings.autoReplaceLimit) :
    (textPass st ids).replacementCount ≤ st.settings.autoReplaceLimit
    ∧ (textPass st ids).settings = st.settings :=
  guardedFold_invariant _ processTextNode_le ids st h

theorem processBatchNode_le (s : ScanState) (id : Nat) :
    (processBatchNode s id).replacementCount ≤ s.replacementCount + 1
    ∧ (processBatchNode s id).settings = s.settings := by
  unfold processBatchNode
  split
  · split
    · exact ⟨Nat.le_succ _, rfl⟩
    · unfold compositePass
      simp only [List.foldl_cons, List.foldl_nil]
      split
      · exact ⟨Nat.le_succ _, rfl⟩
      · exact compositePass_body_le s id
  · exact processTextNode_le s id
  · exact ⟨Nat.le_succ _, rfl⟩

theorem processBatch_invariant (st : ScanState) (ids : List Nat)
    (h : st.replacementCount ≤ st.settings.autoReplaceLimit) :
    (processBatch st ids).replacementCount ≤ st.settings.autoReplaceLimit
    ∧ (processBatch st ids).settings = st.settings :=
  guardedFold_invariant _ processBatchNode_le ids st h

theorem scanBody_invariant (st : ScanState)
    (h : st.replacementCount ≤ st.settings.autoReplaceLimit) :
    (scanBody st).replacementCount ≤ st.settings.autoReplaceLimit
    ∧ (scanBody st).settings = st.settings := by
  unfold scanBody
  by_cases hguard : st.settings.autoReplaceLimit ≤ st.replacementCount
  · rw [if_pos hguard]
    exact ⟨h, rfl⟩
  · rw [if_neg hguard]
    have h1 := compositePass_invariant st (candidateIds st) h
    have h2 := textPass_invariant (compositePass st (candidateIds st))
      (textIds (compositePass st (candidateIds st))) (by rw [h1.2]; exact h1.1)
    rw [h1.2] at h2
    exact h2

theorem step_invariant (st : ScanState) (e : Event)
    (h : st.replacementCount ≤ st.settings.autoReplaceLimit) :
    (step st e).replacementCount ≤ st.settings.autoReplaceLimit
    ∧ (step st e).settings = st.settings := by
  cases e with
  | scan =>
    show (scanPage st).replacementCount ≤ _ ∧ (scanPage st).settings = _
    unfold scanPage
    by_cases hg : (!st.isEnabled || st.rates.isNone) = true
    · rw [if_pos hg]
      exact ⟨h, rfl⟩
    · rw [if_neg hg]
      exact scanBody_invariant st h
  | batch ids => exact processBatch_invariant st ids h
  | complete k =>
    have := completeAnim_fields st k
    exact ⟨this.1 ▸ h, this.2⟩
  | remove id => exact ⟨h, rfl⟩
  | restoreOne id =>
    have := restoreElement_le st id
    exact ⟨le_trans this.1 h, this.2⟩
  | restoreEverything =>
    have := restoreAll_fields st
    exact ⟨this.1 ▸ Nat.zero_le _, this.2⟩

theorem run_invariant :
    ∀ (es : List Event) (st : ScanState),
      st.replacementCount ≤ st.settings.autoReplaceLimit →
      (run st es).replacementCount ≤ st.settings.autoReplaceLimit
      ∧ (run st es).settings = st.settings := by
  intro es
  induction es with
  | nil => intro st h; exact ⟨h, rfl⟩
  | cons e rest ih =>
    intro st h
    have h1 := step_invariant st e h
    have h2 := ih (step st e) (by rw [h1.2]; exact h1.1)
    rw [h1.2] at h2
    exact ⟨h2.1, h2.2⟩

/-- C1: over every sequence of scan passes (initial scans, composite
passes, debounced mutation batches), transition completions, removals and
restorations from an initialized scanner, `replacementCount` never exceeds
`settings.autoReplaceLimit`; and once the count has reached the limit,
every pass — full scan body, composite loop, text loop, batch loop — is
the identity on the state: no further candidate is processed or replaced
until a restoration decrements the count. -/
theorem budget_invariant :
    (∀ (cfg : ScanSettings) (rates : Option RateTable) (hostname : Str)
        (doc : List (Nat × Region)) (es : List Event),
        (run (initScanner cfg rates hostname doc) es).replacementCount
          ≤ cfg.autoReplaceLimit)
    ∧ (∀ st : ScanState, st.settings.autoReplaceLimit ≤ st.replacementCount →
        scanBody st = st
        ∧ (∀ ids, compositePass st ids = st)
        ∧ (∀ ids, textPass st ids = st)
        ∧ (∀ ids, processBatch st ids = st)) := by
  constructor
  · intro cfg rates hostname doc es
    exact (run_invariant es (initScanner cfg rates hostname doc) (Nat.zero_le _)).1
  · intro st h
    refine ⟨?_, ?_, ?_, ?_⟩
    · unfold scanBody
      rw [if_pos h]
    · intro ids
      exact guardedFold_stuck _ ids st h
    · intro ids
      exact guardedFold_stuck _ ids st h
    · intro ids
      exact guardedFold_stuck _ ids st h

/-- Witness for C1: with a limit of 3 and five convertible text nodes, two
consecutive full scans still leave the count at 3 = the limit, and a state
at the limit is untouched by a further batch pass. -/
theorem budget_invariant_witness :
    (run exBudgetState [Event.scan, Event.scan]).replacementCount ≤ 3
    ∧ processBatch (run exBudgetState [Event.scan]) [0, 1, 2, 3, 4]
        = run exBudgetState [Event.scan] := by
  constructor
  · exact budget_invariant.1 exBudgetSettings (some exRates) ("example.com".data)
      exBudgetDoc [Event.scan, Event.scan]
  · exact (budget_invariant.2 (run exBudgetState [Event.scan])
      (by with_unfolding_all decide)).2.2.2 [0, 1, 2, 3, 4]

/-!
## C3 — convert/restore round trip
-/

theorem strIndexOf_sound : ∀ (s pat : Str) (n : Nat),
    strIndexOf s pat = some n → pat <+: s.drop n := by
  intro s
  induction s with
  | nil =>
    intro pat n h
    unfold strIndexOf at h
    by_cases hp : pat = []
    · rw [if_pos hp] at h
      cases h
      simp [hp]
    · rw [if_neg hp] at h
      exact Option.noConfusion h
  | cons c rest ih =>
    intro pat n h
    unfold strIndexOf at h
    by_cases hp : pat.isPrefixOf (c :: rest) = true
    · rw [if_pos hp] at h
      cases h
      simpa using List.isPrefixOf_iff_prefix.mp hp
    · rw [if_neg hp] at h
      cases hm : strIndexOf rest pat with
      | none =>
        rw [hm] at h
        exact Option.noConfusion h
      | some m =>
        rw [hm] at h
        have hn : m + 1 = n := by simpa using h
        cases hn
        simpa using ih pat m hm

theorem take_mid_drop (s pat : Str) (n : Nat) (h : pat <+: s.drop n) :
    s.take n ++ pat ++ s.drop (n + pat.length) = s := by
  obtain ⟨t, ht⟩ := h
  have hdd : s.drop (n + pat.length) = t := by
    rw [← List.drop_drop, ← ht]
    exact List.drop_left pat t
  rw [hdd]
  conv_rhs => rw [← List.take_append_drop n s, ← ht]
  rw [List.append_assoc]

theorem jsTrimEnd_initial (s : Str) : jsTrimEnd s <+: s := by
  unfold jsTrimEnd
  have h : List.dropWhile isJsWhitespace s.reverse <:+ s.reverse :=
    List.dropWhile_suffix isJsWhitespace
  have h2 := List.reverse_prefix.mpr h
  simpa using h2

theorem orphanExtend_segment (text original : Str) (ms : Nat)
    (h : original <+: text.drop ms) :
    (orphanExtend text ms original).2 <+: text.drop (orphanExtend text ms original).1 := by
  unfold orphanExtend
  by_cases h0 : ms = 0
  · rw [if_pos h0]
    simpa [h0] using h
  · rw [if_neg h0]
    dsimp only
    cases hsym : firstSome symbolKeys (fun sym =>
        if strEndsWith (jsTrimEnd (text.take ms)) sym then some sym else none) with
    | none =>
      dsimp only
      exact h
    | some sym =>
      dsimp only
      obtain ⟨x, hx, hfx⟩ := firstSome_mem hsym
      have hends : strEndsWith (jsTrimEnd (text.take ms)) sym = true := by
        by_cases he : strEndsWith (jsTrimEnd (text.take ms)) x = true
        · rw [if_pos he] at hfx
          cases hfx
          exact he
        · rw [if_neg he] at hfx
          exact Option.noConfusion hfx
      have hsuf : sym <:+ jsTrimEnd (text.take ms) :=
        List.isSuffixOf_iff_suffix.mp hends
      set bm := jsTrimEnd (text.take ms) with hbm
      obtain ⟨front, hfront⟩ := hsuf
      have hbmpre : bm <+: text := by
        rw [hbm]
        exact (jsTrimEnd_initial (text.take ms)).trans (List.take_prefix ms text)
      obtain ⟨tail, htail⟩ := hbmpre
      have hlen_sym : sym.length ≤ bm.length := by
        rw [← hfront]
        simp
      have hfl : front.length = bm.length - sym.length := by
        have hc := congrArg List.length hfront
        simp only [List.length_append] at hc
        omega
      have hbm_ms : bm.length ≤ ms := by
        have h1 : bm.length ≤ (text.take ms).length := by
          rw [hbm]
          exact (jsTrimEnd_initial (text.take ms)).length_le
        have h2 : (text.take ms).length ≤ ms := by
          rw [List.length_take]
          exact Nat.min_le_left _ _
        omega
      have hss : bm.length - sym.length + sym.length = bm.length :=
        Nat.sub_add_cancel hlen_sym
      have hdrop_bm : text.drop bm.length = tail := by
        rw [← htail]
        exact List.drop_left _ _
      have hdropA : text.drop (bm.length - sym.length) = sym ++ tail := by
        rw [← hfl, ← htail, ← hfront, List.append_assoc]
        exact List.drop_left _ _
      have htail_split : tail = tail.take (ms - bm.length) ++ text.drop ms := by
        conv_lhs => rw [← List.take_append_drop (ms - bm.length) tail]
        congr 1
        rw [← hdrop_bm, List.drop_drop, Nat.add_sub_cancel' hbm_ms]
      rw [hss]
      unfold slice
      rw [hdrop_bm, hdropA]
      conv_rhs => rw [htail_split]
      rw [List.append_assoc]
      exact (List.prefix_append_right_inj sym).mpr
        ((List.prefix_append_right_inj _).mpr h)

theorem assocLookup_update (l : List (Nat × Region)) (id : Nat) (sl : Slot) :
    ∀ r, assocLookup l id = some r →
    assocLookup (l.map (fun p => if p.1 = id then (p.1, { p.2 with slot := sl }) else p)) id
      = some { r with slot := sl } := by
  induction l with
  | nil =>
    intro r h
    exact Option.noConfusion h
  | cons q rest ih =>
    intro r h
    obtain ⟨a, b⟩ := q
    unfold assocLookup at h
    by_cases ha : a = id
    · rw [if_pos ha] at h
      cases h
      subst ha
      rw [List.map_cons]
      show assocLookup ((if (a, r).1 = a then ((a, r).1, { (a, r).2 with slot := sl })
        else (a, r)) :: _) a = _
      rw [if_pos rfl]
      unfold assocLookup
      rw [if_pos rfl]
    · rw [if_neg ha] at h
      rw [List.map_cons]
      show assocLookup ((if (a, b).1 = id then ((a, b).1, { (a, b).2 with slot := sl })
        else (a, b)) :: _) id = _
      rw [if_neg ha]
      unfold assocLookup
      rw [if_neg ha]
      exact ih r h

theorem findRegion_setSlot (st : ScanState) (id : Nat) (sl : Slot) (r : Region)
    (h : findRegion st id = some r) :
    findRegion (setSlot st id sl) id = some { r with slot := sl } :=
  assocLookup_update st.doc id sl r h

theorem regionText_setSlot (st : ScanState) (id : Nat) (sl : Slot) (r : Region)
    (h : findRegion st id = some r) :
    regionText (setSlot st id sl) id = some (slotText sl) := by
  unfold regionText
  rw [findRegion_setSlot st id sl r h]
  rfl

theorem processTextNode_success (st : ScanState) (id : Nat) (text : Str)
    (d : Detection) (conv : ℚ) (ms : Nat)
    (hfind : findRegion st id = some ⟨true, Slot.textNode text⟩)
    (hlen : ¬(text = [] ∨ MAX_SELECTION_LENGTH * 2 < text.length))
    (hdet : detectCurrency text st.settings.numberFormat = some d)
    (hfc : ¬(resolveFromCurrency d st.settings = st.settings.targetCurrency))
    (hconv : convertCurrencyLocal st.rates d.amount (resolveFromCurrency d st.settings)
        st.settings.targetCurrency = some conv)
    (hms : strIndexOf text d.original = some ms) :
    processTextNode st id =
      { pushPending (setSlot st id (Slot.split
            (text.take (orphanExtend text ms d.original).1)
            (SpanInner.fading (orphanExtend text ms d.original).2)
            (text.drop ((orphanExtend text ms d.original).1
              + (orphanExtend text ms d.original).2.length))))
          (Pending.textSwap id (orphanExtend text ms d.original).2
            (resolveFromCurrency d st.settings) conv) with
        replacementCount := st.replacementCount + 1 } := by
  unfold processTextNode
  simp only [hfind]
  rw [if_neg hlen]
  simp only [hdet]
  rw [if_neg hfc]
  simp only [hconv]
  unfold replaceInTextNode
  simp only [hms]
  rfl

theorem processCompositeElement_success (st : ScanState) (id : Nat)
    (el : CompositeEl) (d : Detection) (conv : ℚ)
    (hfind : findRegion st id = some ⟨true, Slot.composite el⟩)
    (hlen : ¬(jsTrim el.text = [] ∨ 50 < (jsTrim el.text).length))
    (hdet : detectCurrency (jsTrim el.text) st.settings.numberFormat = some d)
    (hfc : ¬(resolveFromCurrency d st.settings = st.settings.targetCurrency))
    (hsurg : ¬(15 < (jsTrim el.text).length
        ∧ 2 * d.original.length < (jsTrim el.text).length))
    (hconv : convertCurrencyLocal st.rates d.amount (resolveFromCurrency d st.settings)
        st.settings.targetCurrency = some conv) :
    processCompositeElement st id =
      { pushPending (setSlot st id (Slot.composite { el with fading := true }))
          (Pending.compSwap id (jsTrim el.text) el.text
            (resolveFromCurrency d st.settings) conv) with
        replacementCount := st.replacementCount + 1 } := by
  unfold processCompositeElement
  simp only [hfind]
  rw [if_neg hlen]
  simp only [hdet]
  rw [if_neg hfc, if_neg hsurg]
  simp only [hconv]
  rfl

theorem completeAnim_textSwap (st : ScanState) (id : Nat) (b seg a fromC : Str)
    (conv : ℚ)
    (hp : st.pending.get? 0 = some (Pending.textSwap id seg fromC conv))
    (hf : findRegion st id = some ⟨true, Slot.split b (SpanInner.fading seg) a⟩) :
    completeAnim st 0 = setSlot { st with pending := st.pending.eraseIdx 0 } id
      (Slot.split b (SpanInner.replaced seg fromC
        (renderedReplacement conv st.settings.targetCurrency)) a) := by
  unfold completeAnim
  simp only [hp]
  have hf2 : findRegion { st with pending := st.pending.eraseIdx 0 } id
      = some ⟨true, Slot.split b (SpanInner.fading seg) a⟩ := hf
  simp only [hf2]

theorem completeAnim_compSwap (st : ScanState) (id : Nat) (el : CompositeEl)
    (fo oh fromC : Str) (conv : ℚ)
    (hp : st.pending.get? 0 = some (Pending.compSwap id fo oh fromC conv))
    (hf : findRegion st id = some ⟨true, Slot.composite el⟩) :
    completeAnim st 0 = setSlot { st with pending := st.pending.eraseIdx 0 } id
      (Slot.composite { el with
        fading := false
        replacedMark := true
        datasetOriginal := some fo
        datasetOriginalHtml := some oh
        datasetFromCurrency := some fromC
        text := renderedReplacement conv st.settings.targetCurrency }) := by
  unfold completeAnim
  simp only [hp]
  have hf2 : findRegion { st with pending := st.pending.eraseIdx 0 } id
      = some ⟨true, Slot.composite el⟩ := hf
  simp only [hf2]

theorem restoreElement_split (st : ScanState) (id : Nat)
    (b orig fromC shown a : Str)
    (hf : findRegion st id
      = some ⟨true, Slot.split b (SpanInner.replaced orig fromC shown) a⟩) :
    restoreElement st id = { setSlot st id (Slot.textNode (b ++ orig ++ a)) with
      replacementCount := st.replacementCount - 1 } := by
  unfold restoreElement
  simp only [hf]
  rfl

theorem restoreElement_composite (st : ScanState) (id : Nat) (el : CompositeEl)
    (orig : Str)
    (hds : el.datasetOriginal = some orig)
    (hf : findRegion st id = some ⟨true, Slot.composite el⟩) :
    restoreElement st id = { setSlot st id (Slot.textNode orig) with
      replacementCount := st.replacementCount - 1 } := by
  unfold restoreElement
  simp only [hf, hds]
  rfl

/-- Core of the text round trip: if the single pending continuation is the
text swap for region `id` and the region holds the fading span, then firing
the transition and restoring yields the reassembled text and decrements the
count. -/
theorem text_round_trip_core (st0 : ScanState) (id : Nat) (b seg a fromC : Str)
    (conv : ℚ)
    (hp : st0.pending.get? 0 = some (Pending.textSwap id seg fromC conv))
    (hf : findRegion st0 id = some ⟨true, Slot.split b (SpanInner.fading seg) a⟩) :
    regionText (restoreElement (completeAnim st0 0) id) id = some (b ++ seg ++ a)
    ∧ (restoreElement (completeAnim st0 0) id).replacementCount
        = st0.replacementCount - 1 := by
  rw [completeAnim_textSwap st0 id b seg a fromC conv hp hf]
  have hf1 : findRegion ({ st0 with pending := st0.pending.eraseIdx 0 } : ScanState) id
      = some ⟨true, Slot.split b (SpanInner.fading seg) a⟩ := hf
  have hfB := findRegion_setSlot ({ st0 with pending := st0.pending.eraseIdx 0 } : ScanState)
      id (Slot.split b (SpanInner.replaced seg fromC
        (renderedReplacement conv st0.settings.targetCurrency)) a)
      ⟨true, Slot.split b (SpanInner.fading seg) a⟩ hf1
  rw [restoreElement_split _ id b seg fromC _ a hfB]
  constructor
  · exact regionText_setSlot _ id (Slot.textNode (b ++ seg ++ a)) _ hfB
  · simp [setSlot]

/-- Core of the composite round trip: the stored `dataset.original` (the
trimmed pre-conversion text) is what restoration writes back. -/
theorem comp_round_trip_core (st0 : ScanState) (id : Nat) (el : CompositeEl)
    (fo oh fromC : Str) (conv : ℚ)
    (hp : st0.pending.get? 0 = some (Pending.compSwap id fo oh fromC conv))
    (hf : findRegion st0 id = some ⟨true, Slot.composite el⟩) :
    regionText (restoreElement (completeAnim st0 0) id) id = some fo
    ∧ (restoreElement (completeAnim st0 0) id).replacementCount
        = st0.replacementCount - 1 := by
  rw [completeAnim_compSwap st0 id el fo oh fromC conv hp hf]
  have hf1 : findRegion ({ st0 with pending := st0.pending.eraseIdx 0 } : ScanState) id
      = some ⟨true, Slot.composite el⟩ := hf
  have hfB := findRegion_setSlot ({ st0 with pending := st0.pending.eraseIdx 0 } : ScanState)
      id (Slot.composite { el with
        fading := false
        replacedMark := true
        datasetOriginal := some fo
        datasetOriginalHtml := some oh
        datasetFromCurrency := some fromC
        text := renderedReplacement conv st0.settings.targetCurrency })
      ⟨true, Slot.composite el⟩ hf1
  rw [restoreElement_composite _ id _ fo rfl hfB]
  constructor
  · exact regionText_setSlot _ id (Slot.textNode fo) _ hfB
  · simp [setSlot]

/-- C3 counterexample: converting the composite container whose
`textContent` is `" $5 "` and then restoring it yields `"$5"` — the
`textContent.trim()` captured into `dataset.original` at replacement time,
not the exact pre-conversion text, so the round trip is not exact for
composite containers with surrounding whitespace. -/
theorem composite_restore_trims :
    regionText exCompState 0 = some (" $5 ".data)
    ∧ regionText (run exCompState
        [Event.scan, Event.complete 0, Event.restoreOne 0]) 0 = some ("$5".data)
    ∧ " $5 ".data ≠ "$5".data := by
  refine ⟨by with_unfolding_all decide, by with_unfolding_all decide, by decide⟩

/-- C3 (amended): a converted region, once its fade transition has
completed, is restored by `restoreElement` with `replacementCount` back at
its pre-conversion value; the restored text is exactly the pre-conversion
text for a text-node region, but only the *trimmed* pre-conversion text
for a composite container (whose `dataset.original` stores
`textContent.trim()`). -/
theorem convert_restore_round_trip :
    (∀ (st : ScanState) (id : Nat) (text : Str) (d : Detection) (conv : ℚ) (ms : Nat),
      st.pending = [] →
      findRegion st id = some ⟨true, Slot.textNode text⟩ →
      ¬(text = [] ∨ MAX_SELECTION_LENGTH * 2 < text.length) →
      detectCurrency text st.settings.numberFormat = some d →
      ¬(resolveFromCurrency d st.settings = st.settings.targetCurrency) →
      convertCurrencyLocal st.rates d.amount (resolveFromCurrency d st.settings)
          st.settings.targetCurrency = some conv →
      strIndexOf text d.original = some ms →
      regionText (restoreElement (completeAnim (processTextNode st id) 0) id) id
          = some text
      ∧ (restoreElement (completeAnim (processTextNode st id) 0) id).replacementCount
          = st.replacementCount)
    ∧ (∀ (st : ScanState) (id : Nat) (el : CompositeEl) (d : Detection) (conv : ℚ),
      st.pending = [] →
      findRegion st id = some ⟨true, Slot.composite el⟩ →
      ¬(jsTrim el.text = [] ∨ 50 < (jsTrim el.text).length) →
      detectCurrency (jsTrim el.text) st.settings.numberFormat = some d →
      ¬(resolveFromCurrency d st.settings = st.settings.targetCurrency) →
      ¬(15 < (jsTrim el.text).length
          ∧ 2 * d.original.length < (jsTrim el.text).length) →
      convertCurrencyLocal st.rates d.amount (resolveFromCurrency d st.settings)
          st.settings.targetCurrency = some conv →
      regionText (restoreElement (completeAnim (processCompositeElement st id) 0) id) id
          = some (jsTrim el.text)
      ∧ (restoreElement (completeAnim (processCompositeElement st id) 0) id).replacementCount
          = st.replacementCount) := by
  constructor
  · intro st id text d conv ms hpend hfind hlen hdet hfc hconv hms
    rw [processTextNode_success st id text d conv ms hfind hlen hdet hfc hconv hms]
    have hdecomp : text.take (orphanExtend text ms d.original).1
        ++ (orphanExtend text ms d.original).2
        ++ text.drop ((orphanExtend text ms d.original).1
            + (orphanExtend text ms d.original).2.length) = text :=
      take_mid_drop text _ _
        (orphanExtend_segment text d.original ms (strIndexOf_sound text d.original ms hms))
    have hp0 : ({ pushPending (setSlot st id (Slot.split
            (text.take (orphanExtend text ms d.original).1)
            (SpanInner.fading (orphanExtend text ms d.original).2)
            (text.drop ((orphanExtend text ms d.original).1
              + (orphanExtend text ms d.original).2.length))))
          (Pending.textSwap id (orphanExtend text ms d.original).2
            (resolveFromCurrency d st.settings) conv) with
        replacementCount := st.replacementCount + 1 } : ScanState).pending.get? 0
        = some (Pending.textSwap id (orphanExtend text ms d.original).2
            (resolveFromCurrency d st.settings) conv) := by
      simp [pushPending, setSlot, hpend]
    have hfA : findRegion ({ pushPending (setSlot st id (Slot.split
            (text.take (orphanExtend text ms d.original).1)
            (SpanInner.fading (orphanExtend text ms d.original).2)
            (text.drop ((orphanExtend text ms d.original).1
              + (orphanExtend text ms d.original).2.length))))
          (Pending.textSwap id (orphanExtend text ms d.original).2
            (resolveFromCurrency d st.settings) conv) with
        replacementCount := st.replacementCount + 1 } : ScanState) id
        = some ⟨true, Slot.split
            (text.take (orphanExtend text ms d.original).1)
            (SpanInner.fading (orphanExtend text ms d.original).2)
            (text.drop ((orphanExtend text ms d.original).1
              + (orphanExtend text ms d.original).2.length))⟩ :=
      findRegion_setSlot st id _ ⟨true, Slot.textNode text⟩ hfind
    have hcore := text_round_trip_core _ id
      (text.take (orphanExtend text ms d.original).1)
      ((orphanExtend text ms d.original).2)
      (text.drop ((orphanExtend text ms d.original).1
        + (orphanExtend text ms d.original).2.length))
      (resolveFromCurrency d st.settings) conv hp0 hfA
    constructor
    · have h1 := hcore.1
      rw [hdecomp] at h1
      exact h1
    · have h2 := hcore.2
      refine h2.trans ?e1
      show st.replacementCount + 1 - 1 = st.replacementCount
      omega
  · intro st id el d conv hpend hfind hlen hdet hfc hsurg hconv
    rw [processCompositeElement_success st id el d conv hfind hlen hdet hfc hsurg hconv]
    have hp0 : ({ pushPending (setSlot st id (Slot.composite { el with fading := true }))
          (Pending.compSwap id (jsTrim el.text) el.text
            (resolveFromCurrency d st.settings) conv) with
        replacementCount := st.replacementCount + 1 } : ScanState).pending.get? 0
        = some (Pending.compSwap id (jsTrim el.text) el.text
            (resolveFromCurrency d st.settings) conv) := by
      simp [pushPending, setSlot, hpend]
    have hfA : findRegion ({ pushPending
          (setSlot st id (Slot.composite { el with fading := true }))
          (Pending.compSwap id (jsTrim el.text) el.text
            (resolveFromCurrency d st.settings) conv) with
        replacementCount := st.replacementCount + 1 } : ScanState) id
        = some ⟨true, Slot.composite { el with fading := true }⟩ :=
      findRegion_setSlot st id _ ⟨true, Slot.composite el⟩ hfind
    have hcore := comp_round_trip_core _ id { el with fading := true }
      (jsTrim el.text) el.text (resolveFromCurrency d st.settings) conv hp0 hfA
    constructor
    · exact hcore.1
    · refine hcore.2.trans ?e2
      show st.replacementCount + 1 - 1 = st.replacementCount
      omega

/-- Witness for C3 (amended): the text node `"pay $5 now"` round-trips
exactly; the composite container `" $5 "` round-trips to its trimmed text
`"$5"`; both counts return to 0. -/
theorem convert_restore_round_trip_witness :
    regionText (restoreElement (completeAnim (processTextNode exTextState 1) 0) 1) 1
        = some ("pay $5 now".data)
    ∧ (restoreElement (completeAnim (processTextNode exTextState 1) 0) 1).replacementCount
        = exTextState.replacementCount
    ∧ regionText (restoreElement (completeAnim (processCompositeElement exCompState 0) 0) 0) 0
        = some (jsTrim exCompositeEl.text)
    ∧ (restoreElement (completeAnim (processCompositeElement exCompState 0) 0) 0).replacementCount
        = exCompState.replacementCount := by
  obtain ⟨h1, h2⟩ := convert_restore_round_trip.1 exTextState 1 ("pay $5 now".data)
    ⟨5, dollarCodes, "$5".data, "$".data⟩ (5 / 2) 4
    (by rfl) (by with_unfolding_all decide) (by with_unfolding_all decide)
    (by with_unfolding_all decide) (by with_unfolding_all decide)
    (by with_unfolding_all decide) (by with_unfolding_all decide)
  obtain ⟨h3, h4⟩ := convert_restore_round_trip.2 exCompState 0 exCompositeEl
    ⟨5, dollarCodes, "$5".data, "$".data⟩ (5 / 2)
    (by rfl) (by with_unfolding_all decide) (by with_unfolding_all decide)
    (by with_unfolding_all decide) (by with_unfolding_all decide)
    (by with_unfolding_all decide) (by with_unfolding_all decide)
  exact ⟨h1, h2, h3, h4⟩

end CurrencyConverter
